import Mathlib

/-!
Verification of the ingestion-pipeline core of the `some-scripts` repository:
the versioned Mongo store with history tracking
(`toy_news/toy_news/pipelines/mongo.py`), the per-source mapper registry
(`toy_news/toy_news/items.py`), the translation queue / cache subsystem
(`toy_news/scripts/translation_service.py`,
`jump_cal/jump_cal/translators/deepseek_translator.py`,
`toy_news/toy_news/pipelines/translation.py`,
`jump_cal/jump_cal/pipelines/translation.py`) and the notification decisions
(`toy_news/toy_news/pipelines/normalization.py`,
`toy_news/toy_news/pipelines/notify.py`,
`jump_cal/jump_cal/pipelines/jump_cal.py`).

Python values stored in documents are embedded as the inductive `Value`;
Python dicts are association lists (`Doc`) with first-match lookup and
in-place update, which matches the unique-key invariant of Python dicts.
MongoDB collections are lists of documents; `update_one(..., upsert=True)`
is modelled explicitly.  Python exceptions (`KeyError`, `TypeError`,
`NameError`, `ValueError`) are modelled with `Except`.  The md5 content
hash used by the code is kept abstract: definitions take the hex-digest
function as an explicit parameter, so theorems quantify over it.
-/

/-- A Python runtime value as stored in the scraped documents: `None`,
booleans, ints, strings, Mongo ObjectIds, datetimes, lists and dicts. -/
inductive Value where
  | vnone : Value
  | vbool : Bool → Value
  | vint : Int → Value
  | vstr : String → Value
  | vid : Nat → Value
  | vdate : Nat → Value
  | vlist : List Value → Value
  | vobj : List (String × Value) → Value
deriving Repr

mutual

/-- Structural (deep) equality on values, the embedding of Python `==`
on the value shapes the pipelines store. -/
def Value.beq : Value → Value → Bool
  | .vnone, .vnone => true
  | .vbool a, .vbool b => a == b
  | .vint a, .vint b => a == b
  | .vstr a, .vstr b => a == b
  | .vid a, .vid b => a == b
  | .vdate a, .vdate b => a == b
  | .vlist a, .vlist b => Value.beqList a b
  | .vobj a, .vobj b => Value.beqObj a b
  | _, _ => false

/-- Elementwise equality of Python lists. -/
def Value.beqList : List Value → List Value → Bool
  | [], [] => true
  | x :: xs, y :: ys => Value.beq x y && Value.beqList xs ys
  | _, _ => false

/-- Entrywise equality of Python dicts (as ordered pair lists). -/
def Value.beqObj : List (String × Value) → List (String × Value) → Bool
  | [], [] => true
  | (k, v) :: xs, (k2, v2) :: ys => k == k2 && Value.beq v v2 && Value.beqObj xs ys
  | _, _ => false

end

instance : BEq Value := ⟨Value.beq⟩

mutual

theorem Value.beq_iff_eq : ∀ a b : Value, Value.beq a b = true ↔ a = b
  | .vnone, .vnone => by simp [Value.beq]
  | .vbool a, .vbool b => by simp [Value.beq]
  | .vint a, .vint b => by simp [Value.beq]
  | .vstr a, .vstr b => by simp [Value.beq]
  | .vid a, .vid b => by simp [Value.beq]
  | .vdate a, .vdate b => by simp [Value.beq]
  | .vlist a, .vlist b => by
      simp only [Value.beq, Value.vlist.injEq]
      exact Value.beqList_iff_eq a b
  | .vobj a, .vobj b => by
      simp only [Value.beq, Value.vobj.injEq]
      exact Value.beqObj_iff_eq a b
  | .vnone, .vbool _ => by simp [Value.beq]
  | .vnone, .vint _ => by simp [Value.beq]
  | .vnone, .vstr _ => by simp [Value.beq]
  | .vnone, .vid _ => by simp [Value.beq]
  | .vnone, .vdate _ => by simp [Value.beq]
  | .vnone, .vlist _ => by simp [Value.beq]
  | .vnone, .vobj _ => by simp [Value.beq]
  | .vbool _, .vnone => by simp [Value.beq]
  | .vbool _, .vint _ => by simp [Value.beq]
  | .vbool _, .vstr _ => by simp [Value.beq]
  | .vbool _, .vid _ => by simp [Value.beq]
  | .vbool _, .vdate _ => by simp [Value.beq]
  | .vbool _, .vlist _ => by simp [Value.beq]
  | .vbool _, .vobj _ => by simp [Value.beq]
  | .vint _, .vnone => by simp [Value.beq]
  | .vint _, .vbool _ => by simp [Value.beq]
  | .vint _, .vstr _ => by simp [Value.beq]
  | .vint _, .vid _ => by simp [Value.beq]
  | .vint _, .vdate _ => by simp [Value.beq]
  | .vint _, .vlist _ => by simp [Value.beq]
  | .vint _, .vobj _ => by simp [Value.beq]
  | .vstr _, .vnone => by simp [Value.beq]
  | .vstr _, .vbool _ => by simp [Value.beq]
  | .vstr _, .vint _ => by simp [Value.beq]
  | .vstr _, .vid _ => by simp [Value.beq]
  | .vstr _, .vdate _ => by simp [Value.beq]
  | .vstr _, .vlist _ => by simp [Value.beq]
  | .vstr _, .vobj _ => by simp [Value.beq]
  | .vid _, .vnone => by simp [Value.beq]
  | .vid _, .vbool _ => by simp [Value.beq]
  | .vid _, .vint _ => by simp [Value.beq]
  | .vid _, .vstr _ => by simp [Value.beq]
  | .vid _, .vdate _ => by simp [Value.beq]
  | .vid _, .vlist _ => by simp [Value.beq]
  | .vid _, .vobj _ => by simp [Value.beq]
  | .vdate _, .vnone => by simp [Value.beq]
  | .vdate _, .vbool _ => by simp [Value.beq]
  | .vdate _, .vint _ => by simp [Value.beq]
  | .vdate _, .vstr _ => by simp [Value.beq]
  | .vdate _, .vid _ => by simp [Value.beq]
  | .vdate _, .vlist _ => by simp [Value.beq]
  | .vdate _, .vobj _ => by simp [Value.beq]
  | .vlist _, .vnone => by simp [Value.beq]
  | .vlist _, .vbool _ => by simp [Value.beq]
  | .vlist _, .vint _ => by simp [Value.beq]
  | .vlist _, .vstr _ => by simp [Value.beq]
  | .vlist _, .vid _ => by simp [Value.beq]
  | .vlist _, .vdate _ => by simp [Value.beq]
  | .vlist _, .vobj _ => by simp [Value.beq]
  | .vobj _, .vnone => by simp [Value.beq]
  | .vobj _, .vbool _ => by simp [Value.beq]
  | .vobj _, .vint _ => by simp [Value.beq]
  | .vobj _, .vstr _ => by simp [Value.beq]
  | .vobj _, .vid _ => by simp [Value.beq]
  | .vobj _, .vdate _ => by simp [Value.beq]
  | .vobj _, .vlist _ => by simp [Value.beq]

theorem Value.beqList_iff_eq : ∀ a b : List Value, Value.beqList a b = true ↔ a = b
  | [], [] => by simp [Value.beqList]
  | x :: xs, y :: ys => by
      simp only [Value.beqList, Bool.and_eq_true, List.cons.injEq]
      exact and_congr (Value.beq_iff_eq x y) (Value.beqList_iff_eq xs ys)
  | [], _ :: _ => by simp [Value.beqList]
  | _ :: _, [] => by simp [Value.beqList]

theorem Value.beqObj_iff_eq : ∀ a b : List (String × Value), Value.beqObj a b = true ↔ a = b
  | [], [] => by simp [Value.beqObj]
  | (k, v) :: xs, (k2, v2) :: ys => by
      simp only [Value.beqObj, Bool.and_eq_true, List.cons.injEq, Prod.mk.injEq]
      rw [Value.beq_iff_eq v v2, Value.beqObj_iff_eq xs ys]
      constructor
      · rintro ⟨⟨h1, h2⟩, h3⟩; exact ⟨⟨by simpa using h1, h2⟩, h3⟩
      · rintro ⟨⟨h1, h2⟩, h3⟩; exact ⟨⟨by simpa using h1, h2⟩, h3⟩
  | [], _ :: _ => by simp [Value.beqObj]
  | _ :: _, [] => by simp [Value.beqObj]

end

instance : DecidableEq Value := fun a b =>
  decidable_of_iff (Value.beq a b = true) (Value.beq_iff_eq a b)

/-- Python truthiness (`bool(v)`) for the embedded values: used by the
pipelines in tests such as `if field in doc and doc[field]`. -/
def Value.truthy : Value → Bool
  | .vnone => false
  | .vbool b => b
  | .vint n => n ≠ 0
  | .vstr s => s ≠ ""
  | .vid _ => true
  | .vdate _ => true
  | .vlist l => !l.isEmpty
  | .vobj l => !l.isEmpty

/-- A Python dict / Mongo document: an ordered association list.  The
pipelines only ever build dicts with pairwise-distinct keys (a Python
dict cannot hold a key twice); lookups take the first match and updates
rewrite the matching entry in place, preserving insertion order. -/
abbrev Doc := List (String × Value)

namespace Doc

/-- `d.get(k)` returning `none` when the key is absent (first match). -/
def dget? (d : Doc) (k : String) : Option Value :=
  (d.find? (fun p => p.1 == k)).map (·.2)

/-- Python `d.get(k)` (default `None`). -/
def dget (d : Doc) (k : String) : Value := (dget? d k).getD .vnone

/-- Python `d.get(k, dflt)`. -/
def dgetD (d : Doc) (k : String) (dflt : Value) : Value := (dget? d k).getD dflt

/-- Python `k in d`. -/
def dhas (d : Doc) (k : String) : Bool := (dget? d k).isSome

/-- Python `d[k]`, raising `KeyError` when the key is absent. -/
def dgetE (d : Doc) (k : String) : Except String Value :=
  match dget? d k with
  | some v => .ok v
  | none => .error ("KeyError: " ++ k)

/-- Python `d[k] = v`: overwrite the entry in place if the key is present,
else append at the end (insertion order). -/
def dset : Doc → String → Value → Doc
  | [], k, v => [(k, v)]
  | p :: rest, k, v => if p.1 = k then (k, v) :: rest else p :: dset rest k v

/-- Apply a sequence of assignments left to right (dict merge `{**d, **kvs}`
and Mongo `$set`). -/
def dsetMany (d : Doc) (kvs : Doc) : Doc :=
  kvs.foldl (fun acc p => dset acc p.1 p.2) d

/-- Python `d.keys()` in insertion order. -/
def dkeys (d : Doc) : List String := d.map (·.1)

/-- The value the LAST entry for `k` holds: a left-to-right sequence of
assignments (`dsetMany`) leaves exactly this value in place. -/
def dlast : Doc → String → Option Value
  | [], _ => none
  | p :: rest, k =>
    match dlast rest k with
    | some v => some v
    | none => if p.1 = k then some p.2 else none

theorem dget?_nil (k : String) : dget? [] k = none := rfl

theorem dget?_cons (p : String × Value) (d : Doc) (k : String) :
    dget? (p :: d) k = if p.1 = k then some p.2 else dget? d k := by
  by_cases h : p.1 = k <;> simp [dget?, List.find?_cons, h]

theorem dget?_eq_none_iff {d : Doc} {k : String} :
    dget? d k = none ↔ ∀ p ∈ d, p.1 ≠ k := by
  induction d with
  | nil => simp [dget?]
  | cons p rest ih =>
    rw [dget?_cons]
    by_cases h : p.1 = k
    · simp [h]
    · simp [h, ih]

theorem dget?_dset_self (d : Doc) (k : String) (v : Value) :
    dget? (dset d k v) k = some v := by
  induction d with
  | nil => simp [dset, dget?_cons]
  | cons p rest ih =>
    by_cases h : p.1 = k
    · simp [dset, h, dget?_cons]
    · simp [dset, h, dget?_cons, ih]

theorem dget?_dset_other (d : Doc) {k k' : String} (v : Value) (h : k ≠ k') :
    dget? (dset d k v) k' = dget? d k' := by
  induction d with
  | nil => simp [dset, dget?_cons, h]
  | cons p rest ih =>
    by_cases hp : p.1 = k
    · rw [show dset (p :: rest) k v = (k, v) :: rest from by simp [dset, hp]]
      rw [dget?_cons, dget?_cons, hp, if_neg h, if_neg h]
    · rw [show dset (p :: rest) k v = p :: dset rest k v from by simp [dset, hp]]
      rw [dget?_cons, dget?_cons, ih]

theorem dhas_cons (p : String × Value) (d : Doc) (k : String) :
    dhas (p :: d) k = if p.1 = k then true else dhas d k := by
  by_cases h : p.1 = k <;> simp [dhas, dget?_cons, h]

theorem dkeys_dset (d : Doc) (k : String) (v : Value) :
    dkeys (dset d k v) = if dhas d k then dkeys d else dkeys d ++ [k] := by
  induction d with
  | nil => simp [dset, dkeys, dhas, dget?]
  | cons p rest ih =>
    by_cases hp : p.1 = k
    · rw [show dset (p :: rest) k v = (k, v) :: rest from by simp [dset, hp]]
      rw [dhas_cons, if_pos hp]
      simp [dkeys, hp]
    · rw [show dset (p :: rest) k v = p :: dset rest k v from by simp [dset, hp]]
      rw [dhas_cons, if_neg hp]
      by_cases hr : dhas rest k = true
      · rw [hr, if_pos rfl]
        simp only [dkeys, List.map_cons] at ih ⊢
        rw [ih, if_pos hr]
      · rw [show dhas rest k = false from by simp [hr]]
        rw [if_neg (by simp)]
        simp only [dkeys, List.map_cons] at ih ⊢
        rw [ih, if_neg hr]
        simp

theorem nodup_dkeys_dset {d : Doc} (k : String) (v : Value)
    (h : (dkeys d).Nodup) : (dkeys (dset d k v)).Nodup := by
  rw [dkeys_dset]
  by_cases hk : dhas d k = true
  · simp [hk, h]
  · rw [if_neg (by simp [hk])]
    rw [List.nodup_append]
    refine ⟨h, by simp, ?_⟩
    intro a ha hb
    simp only [List.mem_singleton] at hb
    subst hb
    have hnone : dget? d a = none := by
      cases hg : dget? d a with
      | none => rfl
      | some w => rw [dhas, hg] at hk; simp at hk
    rw [dget?_eq_none_iff] at hnone
    unfold dkeys at ha
    simp only [List.mem_map] at ha
    obtain ⟨p, hp, rfl⟩ := ha
    exact hnone p hp rfl

theorem dget?_dsetMany (d : Doc) (kvs : Doc) (k : String) :
    dget? (dsetMany d kvs) k =
      match dlast kvs k with
      | some v => some v
      | none => dget? d k := by
  induction kvs generalizing d with
  | nil => rfl
  | cons p rest ih =>
    have hstep : dsetMany d (p :: rest) = dsetMany (dset d p.1 p.2) rest := rfl
    have hcons : dlast (p :: rest) k =
        (match dlast rest k with
         | some v => some v
         | none => if p.1 = k then some p.2 else none) := rfl
    rw [hstep, ih, hcons]
    cases hr : dlast rest k with
    | some v => rfl
    | none =>
      by_cases hp : p.1 = k
      · subst hp
        simp [dget?_dset_self]
      · simp [hp, dget?_dset_other d p.2 hp]

theorem dlast_eq_none_iff {d : Doc} {k : String} :
    dlast d k = none ↔ ∀ p ∈ d, p.1 ≠ k := by
  induction d with
  | nil => simp [dlast]
  | cons p rest ih =>
    unfold dlast
    cases hr : dlast rest k with
    | some v =>
      have hne : ¬ (∀ q ∈ rest, q.1 ≠ k) := by
        intro hall
        rw [← ih] at hall
        rw [hall] at hr
        exact Option.noConfusion hr
      constructor
      · intro h; exact Option.noConfusion h
      · intro hall
        exact absurd (fun q hq => hall q (List.mem_cons_of_mem p hq)) hne
    | none =>
      by_cases hp : p.1 = k
      · rw [if_pos hp]
        constructor
        · intro h; exact Option.noConfusion h
        · intro h
          exact absurd hp (h p (by simp))
      · rw [if_neg hp]
        rw [ih] at hr
        constructor
        · intro _ q hq
          rcases List.mem_cons.mp hq with h1 | h2
          · subst h1; exact hp
          · exact hr q h2
        · intro _; rfl

theorem dget?_filter (d : Doc) (f : String → Bool) (k : String) :
    dget? (d.filter (fun p => f p.1)) k = if f k then dget? d k else none := by
  induction d with
  | nil => simp [dget?]
  | cons p rest ih =>
    by_cases hp : p.1 = k
    · subst hp
      by_cases hf : f p.1 = true
      · simp [List.filter_cons, hf, dget?_cons]
      · simp [List.filter_cons, hf, dget?_cons, ih]
    · by_cases hf : f p.1 = true
      · simp [List.filter_cons, hf, dget?_cons, hp, ih]
      · simp [List.filter_cons, hf, dget?_cons, hp, ih]

theorem nodup_dkeys_filter {d : Doc} (f : String → Bool)
    (h : (dkeys d).Nodup) : (dkeys (d.filter (fun p => f p.1))).Nodup := by
  unfold dkeys at h ⊢
  exact h.sublist (List.Sublist.map _ (List.filter_sublist d))

theorem dset_eq_append {d : Doc} {k : String} (v : Value)
    (h : dget? d k = none) : dset d k v = d ++ [(k, v)] := by
  induction d with
  | nil => simp [dset]
  | cons p rest ih =>
    rw [dget?_cons] at h
    by_cases hp : p.1 = k
    · rw [if_pos hp] at h; exact Option.noConfusion h
    · rw [if_neg hp] at h
      rw [show dset (p :: rest) k v = p :: dset rest k v from by simp [dset, hp]]
      rw [ih h]
      simp

theorem dlast_append_last (d : Doc) (k : String) (v : Value) :
    dlast (d ++ [(k, v)]) k = some v := by
  induction d with
  | nil => simp [dlast]
  | cons p rest ih =>
    show (match dlast (rest ++ [(k, v)]) k with
      | some w => some w
      | none => if p.1 = k then some p.2 else none) = some v
    rw [ih]

theorem dlast_append_other (d : Doc) {k k' : String} (v : Value) (h : k ≠ k') :
    dlast (d ++ [(k, v)]) k' = dlast d k' := by
  induction d with
  | nil => simp [dlast, h]
  | cons p rest ih =>
    show (match dlast (rest ++ [(k, v)]) k' with
      | some w => some w
      | none => if p.1 = k' then some p.2 else none) = _
    rw [ih]
    rfl

theorem dlast_eq_dget?_of_nodup {d : Doc} (h : (dkeys d).Nodup) (k : String) :
    dlast d k = dget? d k := by
  induction d with
  | nil => simp [dlast, dget?]
  | cons p rest ih =>
    unfold dkeys at h
    simp only [List.map_cons, List.nodup_cons] at h
    obtain ⟨hp, hrest⟩ := h
    rw [dget?_cons]
    unfold dlast
    by_cases hk : p.1 = k
    · subst hk
      have hlr : dlast rest p.1 = none := by
        rw [dlast_eq_none_iff]
        intro q hq hq1
        exact hp (hq1 ▸ List.mem_map_of_mem (·.1) hq)
      simp [hlr]
    · rw [ih hrest]
      cases hr : dget? rest k with
      | some v => simp [hk]
      | none => simp [hk]

end Doc
/-! ## The versioned store: `toy_news/toy_news/pipelines/mongo.py` -/

namespace MongoDBPipeline

/-- `exclude_fields` of `MongoDBPipeline._detect_changes` (line 100). -/
def exclude_fields : List String :=
  ["_id", "updatedAt", "createdAt", "version", "spider_type"]

/-- The `for key in new_data.keys()` loop of `_detect_changes` (lines
102-113), accumulating the `changes` dict. -/
def detect_changes_loop (old_data new_data : Doc) : List String → Doc → Doc
  | [], changes => changes
  | key :: ks, changes =>
    if exclude_fields.contains key then
      detect_changes_loop old_data new_data ks changes
    else if Doc.dget old_data key = Doc.dget new_data key then
      detect_changes_loop old_data new_data ks changes
    else
      detect_changes_loop old_data new_data ks
        (Doc.dset changes key
          (.vobj [("old", Doc.dget old_data key), ("new", Doc.dget new_data key)]))

/-- `MongoDBPipeline._detect_changes` (lines 94-115): `if not old_data:
return {}` (a missing or empty dict is falsy), else diff every
non-excluded key of `new_data` against `old_data`. -/
def detect_changes (old_data : Option Doc) (new_data : Doc) : Doc :=
  match old_data with
  | none => []
  | some od =>
    if od.isEmpty then []
    else detect_changes_loop od new_data (Doc.dkeys new_data) []

/-- A row of the `_history` collection, as written by `_save_to_history`
(lines 119-128). -/
structure HistoryDoc where
  data_id : Value
  url : Value
  snapshot : Doc
  changes : Doc
  version : Int
  timestamp : Nat
  source : Value
  spider_name : Value
deriving Repr, DecidableEq

/-- `MongoDBPipeline._save_to_history` (lines 117-136): append one
immutable history row (`insert_one`); `source`/`spider_name` are read
with `dict.get`. -/
def save_to_history (history : List HistoryDoc) (data_id : Value) (url : Value)
    (item_dict : Doc) (changes : Doc) (version : Int) (now : Nat) : List HistoryDoc :=
  history ++ [{ data_id := data_id, url := url, snapshot := item_dict,
                changes := changes, version := version, timestamp := now,
                source := Doc.dget item_dict "source",
                spider_name := Doc.dget item_dict "spider_name" }]

/-- The state of the two Mongo collections used by the pipeline, plus a
counter standing for Mongo's ObjectId generator. -/
structure MongoState where
  main : List Doc
  history : List HistoryDoc
  nextId : Nat
deriving Repr, DecidableEq

/-- The empty database. -/
def MongoState.empty : MongoState := ⟨[], [], 0⟩

/-- `collection.find_one({"url": u})`. -/
def findOne (docs : List Doc) (u : Value) : Option Doc :=
  docs.find? (fun d => decide (Doc.dget? d "url" = some u))

/-- `update_one` on an existing document: apply `f` to the first document
matching the `{"url": u}` query. -/
def updateFirst (docs : List Doc) (u : Value) (f : Doc → Doc) : List Doc :=
  match docs with
  | [] => []
  | d :: rest =>
    if Doc.dget? d "url" = some u then f d :: rest
    else d :: updateFirst rest u f

/-- `system_fields` of `process_item` (line 168), removed from the `$set`
document. -/
def system_fields : List String := ["_id", "createdAt", "updatedAt", "version"]

/-- The store outcome the rest of the pipeline observes: whether the item
was new and which fields changed. -/
structure UpsertOutcome where
  isNew : Bool
  changedFields : Doc
deriving Repr, DecidableEq

/-- The `{'_initial': True}` sentinel written as `changes` of the first
history entry (line 209). -/
def initialSentinel : Doc := [("_initial", Value.vbool true)]

/-- The document Mongo materialises when `update_one(query, update,
upsert=True)` inserts: the query's equality field, the `$set` fields, the
`$setOnInsert` fields, `$currentDate`'s `updatedAt`, and a fresh `_id`. -/
def insertedDoc (u : Value) (setDoc setOnInsert : Doc) (now : Nat) (newId : Nat) : Doc :=
  Doc.dset (Doc.dset (Doc.dsetMany (Doc.dsetMany [("url", u)] setDoc) setOnInsert)
    "updatedAt" (.vdate now)) "_id" (.vid newId)

/-- The effect of the same `update_one` on an existing document: apply the
`$set` fields and refresh `updatedAt` (`$setOnInsert` is ignored). -/
def appliedDoc (setDoc : Doc) (now : Nat) (d : Doc) : Doc :=
  Doc.dset (Doc.dsetMany d setDoc) "updatedAt" (.vdate now)

/-- `item_dict` of `process_item` (lines 159-160): the item's fields plus
the pipeline's `spider_type` tag. -/
def itemDictOf (item : Doc) (spider_type : String) : Doc :=
  Doc.dset item "spider_type" (.vstr spider_type)

/-- `clean_item_dict` of `process_item` (line 169): `item_dict` with the
system fields removed. -/
def cleanOf (item : Doc) (spider_type : String) : Doc :=
  (itemDictOf item spider_type).filter (fun p => !(system_fields.contains p.1))

/-- The `$setOnInsert` document of the update (lines 172-185). -/
def setOnInsertOf (is_new : Bool) (now : Nat) : Doc :=
  if is_new then [("createdAt", Value.vdate now), ("version", Value.vint 1)]
  else [("createdAt", Value.vdate now)]

/-- The `$set` document of the update for the non-insert path (lines
176-188): the cleaned item fields, plus the bumped `version` when a
non-empty diff was detected. -/
def setDocOf (item : Doc) (spider_type : String) (changes : Doc) (new_version : Int) : Doc :=
  if changes.isEmpty then cleanOf item spider_type
  else Doc.dset (cleanOf item spider_type) "version" (.vint new_version)

/-- `MongoDBPipeline.process_item` (lines 141-266).

* `query = {"url": adapter["url"]}` raises `KeyError` when the item has
  no url (modelled as `Except.error`).
* `old_data.get('version', 0)`: the pipeline only ever writes integer
  versions; a non-integer stored version would make `current_version + 1`
  raise `TypeError`.
* The notify-API block (lines 229-258) references the unimported names
  `uuid` and `requests`; the resulting `NameError` is swallowed by its own
  `except Exception` handler (line 257), so it never affects the
  collections and is modelled as a no-op.
* Returns the next state, the returned item (with `_id` copied onto it,
  lines 199-200) and the observed outcome. -/
def process_item (st : MongoState) (item : Doc) (spider_type : String) (now : Nat) :
    Except String (MongoState × Doc × UpsertOutcome) :=
  match Doc.dget? item "url" with
  | none => .error "KeyError: url"
  | some u =>
    match findOne st.main u with
    | none =>
      -- is_new: insert with version 1, write the initial-creation history row
      let item_dict := itemDictOf item spider_type
      let main' := st.main ++
        [insertedDoc u (cleanOf item spider_type) (setOnInsertOf true now) now st.nextId]
      match findOne main' u with
      | none => .error "TypeError: NoneType is not subscriptable"
      | some new_data =>
        match Doc.dget? new_data "_id" with
        | none => .error "KeyError: _id"
        | some idv =>
          .ok (⟨main', save_to_history st.history idv u item_dict initialSentinel 1 now,
                st.nextId + 1⟩,
               Doc.dset item "_id" idv,
               { isNew := true, changedFields := [] })
    | some old_doc =>
      -- update: `current_version = old_data.get('version', 0)`; the pipeline
      -- only ever writes integer versions, and a non-integer stored version
      -- would make `current_version + 1` raise TypeError
      match
        (match Doc.dget? old_doc "version" with
         | some (.vint n) => some n
         | none => some 0
         | some _ => none : Option Int) with
      | none => .error "TypeError: version is not an int"
      | some current_version =>
        let new_version : Int := current_version + 1
        let item_dict := itemDictOf item spider_type
        let changes := detect_changes (some old_doc) item_dict
        let main' := updateFirst st.main u
          (appliedDoc (setDocOf item spider_type changes new_version) now)
        match findOne main' u with
        | none => .error "TypeError: NoneType is not subscriptable"
        | some new_data =>
          match Doc.dget? new_data "_id" with
          | none => .error "KeyError: _id"
          | some idv =>
            .ok (⟨main',
                  (if changes.isEmpty then st.history
                   else save_to_history st.history idv u item_dict changes new_version now),
                  st.nextId⟩,
                 Doc.dset item "_id" idv,
                 { isNew := false, changedFields := changes })

/-- All history rows for one identity (url), in insertion order. -/
def historyFor (st : MongoState) (u : Value) : List HistoryDoc :=
  st.history.filter (fun h => decide (h.url = u))

/-- Run a crawl: fold `process_item` over a stream of (item, timestamp)
pairs starting from an empty database.  An exception from `process_item`
propagates out of the pipeline (scrapy drops the item), leaving the
collections untouched. -/
def runItems (spider_type : String) (items : List (Doc × Nat)) : MongoState :=
  items.foldl
    (fun st p =>
      match process_item st p.1 spider_type p.2 with
      | .ok (st', _, _) => st'
      | .error _ => st)
    MongoState.empty

end MongoDBPipeline
namespace Doc

theorem dhas_iff_mem_dkeys {d : Doc} {k : String} :
    dhas d k = true ↔ k ∈ dkeys d := by
  rw [dhas, Option.isSome_iff_exists]
  constructor
  · rintro ⟨v, hv⟩
    by_contra hmem
    have : dget? d k = none := by
      rw [dget?_eq_none_iff]
      intro p hp hpk
      exact hmem (hpk ▸ List.mem_map_of_mem (·.1) hp)
    rw [this] at hv
    exact Option.noConfusion hv
  · intro hmem
    cases hg : dget? d k with
    | some v => exact ⟨v, rfl⟩
    | none =>
      rw [dget?_eq_none_iff] at hg
      unfold dkeys at hmem
      obtain ⟨p, hp, rfl⟩ := List.mem_map.mp hmem
      exact absurd rfl (hg p hp)

end Doc

namespace MongoDBPipeline

theorem findOne_url {docs : List Doc} {u : Value} {d : Doc}
    (h : findOne docs u = some d) : Doc.dget? d "url" = some u := by
  unfold findOne at h
  have := List.find?_some h
  simpa using this

theorem mem_of_findOne {docs : List Doc} {u : Value} {d : Doc}
    (h : findOne docs u = some d) : d ∈ docs :=
  List.mem_of_find?_eq_some h

theorem findOne_append_of_none {docs : List Doc} {u : Value} (d : Doc)
    (h : findOne docs u = none) :
    findOne (docs ++ [d]) u =
      if Doc.dget? d "url" = some u then some d else none := by
  unfold findOne at h ⊢
  rw [List.find?_append, h]
  by_cases hd : Doc.dget? d "url" = some u <;> simp [List.find?_cons, hd]

theorem findOne_eq_none_iff {docs : List Doc} {u : Value} :
    findOne docs u = none ↔ ∀ d ∈ docs, Doc.dget? d "url" ≠ some u := by
  unfold findOne
  rw [List.find?_eq_none]
  constructor
  · intro h d hd; have := h d hd; simpa using this
  · intro h d hd; simpa using h d hd

theorem updateFirst_cons_hit {d : Doc} {rest : List Doc} {u : Value} (f : Doc → Doc)
    (hd : Doc.dget? d "url" = some u) :
    updateFirst (d :: rest) u f = f d :: rest := by
  simp [updateFirst, hd]

theorem updateFirst_cons_miss {d : Doc} {rest : List Doc} {u : Value} (f : Doc → Doc)
    (hd : ¬ Doc.dget? d "url" = some u) :
    updateFirst (d :: rest) u f = d :: updateFirst rest u f := by
  simp [updateFirst, hd]

theorem findOne_updateFirst_self {docs : List Doc} {u : Value} {d0 : Doc} (f : Doc → Doc)
    (h : findOne docs u = some d0) (hf : Doc.dget? (f d0) "url" = some u) :
    findOne (updateFirst docs u f) u = some (f d0) := by
  induction docs with
  | nil => exact absurd h (by simp [findOne])
  | cons d rest ih =>
    by_cases hd : Doc.dget? d "url" = some u
    · have hd0 : d0 = d := by
        unfold findOne at h
        rw [List.find?_cons_of_pos _ (by simpa using hd)] at h
        exact (Option.some.inj h).symm
      subst hd0
      rw [updateFirst_cons_hit f hd]
      unfold findOne
      rw [List.find?_cons_of_pos _ (by simpa using hf)]
    · have hrest : findOne rest u = some d0 := by
        unfold findOne at h ⊢
        rw [List.find?_cons_of_neg _ (by simpa using hd)] at h
        exact h
      rw [updateFirst_cons_miss f hd]
      unfold findOne
      rw [List.find?_cons_of_neg _ (by simpa using hd)]
      exact ih hrest

theorem findOne_updateFirst_other {docs : List Doc} {u u' : Value} (f : Doc → Doc)
    (hne : u ≠ u')
    (hf : ∀ d, Doc.dget? d "url" = some u → Doc.dget? (f d) "url" = some u) :
    findOne (updateFirst docs u f) u' = findOne docs u' := by
  induction docs with
  | nil => rfl
  | cons d rest ih =>
    by_cases hd : Doc.dget? d "url" = some u
    · rw [updateFirst_cons_hit f hd]
      have hfd := hf d hd
      unfold findOne
      rw [List.find?_cons_of_neg _ (by simp [hfd, hne]),
        List.find?_cons_of_neg _ (by simp [hd, hne])]
    · rw [updateFirst_cons_miss f hd]
      unfold findOne
      by_cases hd' : Doc.dget? d "url" = some u'
      · rw [List.find?_cons_of_pos _ (by simpa using hd'),
          List.find?_cons_of_pos _ (by simpa using hd')]
      · rw [List.find?_cons_of_neg _ (by simpa using hd'),
          List.find?_cons_of_neg _ (by simpa using hd')]
        exact ih

theorem mem_updateFirst {docs : List Doc} {u : Value} {f : Doc → Doc} {x : Doc}
    (hx : x ∈ updateFirst docs u f) :
    x ∈ docs ∨ ∃ d ∈ docs, Doc.dget? d "url" = some u ∧ x = f d := by
  induction docs with
  | nil => exact absurd hx (by simp [updateFirst])
  | cons d rest ih =>
    by_cases hd : Doc.dget? d "url" = some u
    · rw [updateFirst_cons_hit f hd] at hx
      rcases List.mem_cons.mp hx with h1 | h2
      · exact Or.inr ⟨d, by simp, hd, h1⟩
      · exact Or.inl (List.mem_cons_of_mem d h2)
    · rw [updateFirst_cons_miss f hd] at hx
      rcases List.mem_cons.mp hx with h1 | h2
      · exact Or.inl (h1 ▸ by simp)
      · rcases ih h2 with h3 | ⟨d', hd', hu', hx'⟩
        · exact Or.inl (List.mem_cons_of_mem d h3)
        · exact Or.inr ⟨d', List.mem_cons_of_mem d hd', hu', hx'⟩

theorem detect_changes_loop_acc (od nd : Doc) (ks : List String) (acc : Doc)
    (h : ∀ k ∈ ks, exclude_fields.contains k = false →
          Doc.dget od k = Doc.dget nd k) :
    detect_changes_loop od nd ks acc = acc := by
  induction ks with
  | nil => rfl
  | cons k ks ih =>
    unfold detect_changes_loop
    by_cases he : exclude_fields.contains k = true
    · rw [if_pos he]
      exact ih (fun k' hk' => h k' (List.mem_cons_of_mem k hk'))
    · rw [if_neg he]
      rw [if_pos (h k (by simp) (by simpa using he))]
      exact ih (fun k' hk' => h k' (List.mem_cons_of_mem k hk'))

theorem detect_changes_loop_dget? (od nd : Doc) (ks : List String) (acc : Doc)
    (k : String) :
    Doc.dget? (detect_changes_loop od nd ks acc) k =
      if k ∈ ks ∧ exclude_fields.contains k = false ∧ Doc.dget od k ≠ Doc.dget nd k
      then some (.vobj [("old", Doc.dget od k), ("new", Doc.dget nd k)])
      else Doc.dget? acc k := by
  induction ks generalizing acc with
  | nil => simp [detect_changes_loop]
  | cons k0 ks ih =>
    unfold detect_changes_loop
    by_cases he : exclude_fields.contains k0 = true
    · rw [if_pos he, ih]
      refine if_congr ?_ rfl rfl
      constructor
      · rintro ⟨h1, h2, h3⟩; exact ⟨List.mem_cons_of_mem k0 h1, h2, h3⟩
      · rintro ⟨h1, h2, h3⟩
        rcases List.mem_cons.mp h1 with rfl | hmem
        · rw [he] at h2; exact absurd h2 (by simp)
        · exact ⟨hmem, h2, h3⟩
    · rw [if_neg he]
      by_cases hv : Doc.dget od k0 = Doc.dget nd k0
      · rw [if_pos hv, ih]
        refine if_congr ?_ rfl rfl
        constructor
        · rintro ⟨h1, h2, h3⟩; exact ⟨List.mem_cons_of_mem k0 h1, h2, h3⟩
        · rintro ⟨h1, h2, h3⟩
          rcases List.mem_cons.mp h1 with rfl | hmem
          · exact absurd hv h3
          · exact ⟨hmem, h2, h3⟩
      · rw [if_neg hv, ih]
        by_cases hk : k = k0
        · subst hk
          by_cases hmem : k ∈ ks
          · rw [if_pos ⟨hmem, by simpa using he, hv⟩,
              if_pos ⟨by simp, by simpa using he, hv⟩]
          · rw [if_neg (by rintro ⟨h1, _, _⟩; exact hmem h1),
              if_pos ⟨by simp, by simpa using he, hv⟩]
            exact Doc.dget?_dset_self acc k _
        · rw [Doc.dget?_dset_other acc _ (fun hh => hk hh.symm)]
          refine if_congr ?_ rfl rfl
          constructor
          · rintro ⟨h1, h2, h3⟩; exact ⟨List.mem_cons_of_mem k0 h1, h2, h3⟩
          · rintro ⟨h1, h2, h3⟩
            rcases List.mem_cons.mp h1 with rfl | hmem
            · exact absurd rfl hk
            · exact ⟨hmem, h2, h3⟩

end MongoDBPipeline
namespace MongoDBPipeline

theorem itemDictOf_dget?_other (item : Doc) (sp : String) {k : String}
    (h : k ≠ "spider_type") :
    Doc.dget? (itemDictOf item sp) k = Doc.dget? item k := by
  unfold itemDictOf
  exact Doc.dget?_dset_other _ _ (Ne.symm h)

theorem itemDictOf_nodup {item : Doc} (sp : String)
    (h : (Doc.dkeys item).Nodup) : (Doc.dkeys (itemDictOf item sp)).Nodup := by
  unfold itemDictOf
  exact Doc.nodup_dkeys_dset _ _ h

theorem cleanOf_dget? (item : Doc) (sp : String) (k : String) :
    Doc.dget? (cleanOf item sp) k =
      if system_fields.contains k = true then none
      else Doc.dget? (itemDictOf item sp) k := by
  unfold cleanOf
  rw [Doc.dget?_filter (itemDictOf item sp) (fun s => !system_fields.contains s) k]
  by_cases h : system_fields.contains k = true
  · rw [if_neg (by simpa using h), if_pos h]
  · rw [if_pos (by simpa using h), if_neg h]

theorem cleanOf_nodup {item : Doc} (sp : String)
    (h : (Doc.dkeys item).Nodup) : (Doc.dkeys (cleanOf item sp)).Nodup := by
  unfold cleanOf
  exact Doc.nodup_dkeys_filter (fun s => !system_fields.contains s)
    (itemDictOf_nodup sp h)

theorem cleanOf_dlast {item : Doc} (sp : String) (k : String)
    (h : (Doc.dkeys item).Nodup) :
    Doc.dlast (cleanOf item sp) k = Doc.dget? (cleanOf item sp) k :=
  Doc.dlast_eq_dget?_of_nodup (cleanOf_nodup sp h) k

theorem cleanOf_dlast_sys (item : Doc) (sp : String) (k : String)
    (hk : system_fields.contains k = true) :
    Doc.dlast (cleanOf item sp) k = none := by
  rw [Doc.dlast_eq_none_iff]
  intro p hp hpk
  have hmem := List.of_mem_filter hp
  rw [hpk] at hmem
  simp only [Bool.not_eq_true'] at hmem
  rw [hk] at hmem
  exact Bool.noConfusion hmem

theorem cleanOf_no_version (item : Doc) (sp : String) :
    Doc.dget? (cleanOf item sp) "version" = none := by
  rw [cleanOf_dget?, if_pos (by decide)]

theorem setOnInsertOf_dlast (b : Bool) (now : Nat) {k : String}
    (h1 : k ≠ "createdAt") (h2 : k ≠ "version") :
    Doc.dlast (setOnInsertOf b now) k = none := by
  cases b <;> simp [setOnInsertOf, Doc.dlast, Ne.symm h1, Ne.symm h2]

theorem setOnInsertOf_true_version (now : Nat) :
    Doc.dlast (setOnInsertOf true now) "version" = some (.vint 1) := by
  simp [setOnInsertOf, Doc.dlast]

theorem insertedDoc_dget? (u : Value) (setDoc soi : Doc) (now newId : Nat)
    {k : String} (h1 : k ≠ "_id") (h2 : k ≠ "updatedAt")
    (h3 : Doc.dlast soi k = none) :
    Doc.dget? (insertedDoc u setDoc soi now newId) k =
      match Doc.dlast setDoc k with
      | some v => some v
      | none => Doc.dget? [("url", u)] k := by
  unfold insertedDoc
  rw [Doc.dget?_dset_other _ _ (Ne.symm h1), Doc.dget?_dset_other _ _ (Ne.symm h2),
    Doc.dget?_dsetMany, h3, Doc.dget?_dsetMany]

theorem insertedDoc_id (u : Value) (setDoc soi : Doc) (now newId : Nat) :
    Doc.dget? (insertedDoc u setDoc soi now newId) "_id" = some (.vid newId) :=
  Doc.dget?_dset_self _ _ _

theorem appliedDoc_dget? (setDoc : Doc) (now : Nat) (d : Doc) {k : String}
    (h : k ≠ "updatedAt") :
    Doc.dget? (appliedDoc setDoc now d) k =
      match Doc.dlast setDoc k with
      | some v => some v
      | none => Doc.dget? d k := by
  unfold appliedDoc
  rw [Doc.dget?_dset_other _ _ (Ne.symm h), Doc.dget?_dsetMany]

theorem setDocOf_dlast_sys (item : Doc) (sp : String) (ch : Doc) (v : Int)
    {k : String} (h1 : k ≠ "version") (hk : system_fields.contains k = true) :
    Doc.dlast (setDocOf item sp ch v) k = none := by
  unfold setDocOf
  by_cases he : ch.isEmpty = true
  · rw [if_pos he]
    exact cleanOf_dlast_sys item sp k hk
  · rw [if_neg he, Doc.dset_eq_append _ (cleanOf_no_version item sp),
      Doc.dlast_append_other _ _ (fun hh => h1 hh.symm)]
    exact cleanOf_dlast_sys item sp k hk

theorem setDocOf_dlast_nonsys (item : Doc) (sp : String) (ch : Doc) (v : Int)
    {k : String} (h1 : k ≠ "version") :
    Doc.dlast (setDocOf item sp ch v) k = Doc.dlast (cleanOf item sp) k := by
  unfold setDocOf
  by_cases he : ch.isEmpty = true
  · rw [if_pos he]
  · rw [if_neg he, Doc.dset_eq_append _ (cleanOf_no_version item sp),
      Doc.dlast_append_other _ _ (fun hh => h1 hh.symm)]

theorem setDocOf_dlast_version (item : Doc) (sp : String) (ch : Doc) (v : Int) :
    Doc.dlast (setDocOf item sp ch v) "version" =
      if ch.isEmpty then none else some (.vint v) := by
  unfold setDocOf
  by_cases he : ch.isEmpty = true
  · rw [if_pos he, if_pos he]
    exact cleanOf_dlast_sys item sp "version" (by decide)
  · rw [if_neg he, if_neg he, Doc.dset_eq_append _ (cleanOf_no_version item sp),
      Doc.dlast_append_last]

theorem cleanOf_url {item : Doc} (sp : String) {u : Value}
    (hN : (Doc.dkeys item).Nodup) (hu : Doc.dget? item "url" = some u) :
    Doc.dlast (cleanOf item sp) "url" = some u := by
  rw [cleanOf_dlast sp "url" hN, cleanOf_dget?, if_neg (by decide),
    itemDictOf_dget?_other item sp (by decide)]
  exact hu

theorem insertedDoc_url {item : Doc} {u : Value} (sp : String) (now newId : Nat)
    (hN : (Doc.dkeys item).Nodup) (hu : Doc.dget? item "url" = some u) :
    Doc.dget? (insertedDoc u (cleanOf item sp) (setOnInsertOf true now) now newId)
      "url" = some u := by
  rw [insertedDoc_dget? u _ _ now newId (by decide) (by decide)
    (setOnInsertOf_dlast true now (by decide) (by decide)), cleanOf_url sp hN hu]

theorem insertedDoc_version (item : Doc) (u : Value) (sp : String) (now newId : Nat) :
    Doc.dget? (insertedDoc u (cleanOf item sp) (setOnInsertOf true now) now newId)
      "version" = some (.vint 1) := by
  unfold insertedDoc
  rw [Doc.dget?_dset_other _ _ (by decide : "_id" ≠ "version"),
    Doc.dget?_dset_other _ _ (by decide : "updatedAt" ≠ "version"),
    Doc.dget?_dsetMany, setOnInsertOf_true_version]

theorem appliedDoc_url {item : Doc} {u : Value} (sp : String) (ch : Doc) (v : Int)
    (now : Nat) (d : Doc)
    (hN : (Doc.dkeys item).Nodup) (hu : Doc.dget? item "url" = some u) :
    Doc.dget? (appliedDoc (setDocOf item sp ch v) now d) "url" = some u := by
  rw [appliedDoc_dget? _ now d (by decide),
    setDocOf_dlast_nonsys item sp ch v (by decide), cleanOf_url sp hN hu]

theorem appliedDoc_id {item : Doc} (sp : String) (ch : Doc) (v : Int)
    (now : Nat) (d : Doc) :
    Doc.dget? (appliedDoc (setDocOf item sp ch v) now d) "_id" =
      Doc.dget? d "_id" := by
  rw [appliedDoc_dget? _ now d (by decide),
    setDocOf_dlast_sys item sp ch v (by decide) (by decide)]

theorem appliedDoc_version {item : Doc} (sp : String) (ch : Doc) (v : Int)
    (now : Nat) (d : Doc) :
    Doc.dget? (appliedDoc (setDocOf item sp ch v) now d) "version" =
      if ch.isEmpty then Doc.dget? d "version" else some (.vint v) := by
  rw [appliedDoc_dget? _ now d (by decide), setDocOf_dlast_version]
  by_cases he : ch.isEmpty = true
  · rw [if_pos he, if_pos he]
  · rw [if_neg he, if_neg he]

end MongoDBPipeline
namespace MongoDBPipeline

/-- Shape of `process_item` on a fresh identity: insert with `version = 1`,
record the initial-creation history row, report `isNew = true` with an
empty diff. -/
theorem process_item_insert (st : MongoState) {item : Doc} (sp : String) (now : Nat)
    {u : Value} (hN : (Doc.dkeys item).Nodup)
    (hu : Doc.dget? item "url" = some u)
    (hold : findOne st.main u = none) :
    process_item st item sp now = .ok
      (⟨st.main ++
          [insertedDoc u (cleanOf item sp) (setOnInsertOf true now) now st.nextId],
        save_to_history st.history (.vid st.nextId) u (itemDictOf item sp)
          initialSentinel 1 now,
        st.nextId + 1⟩,
       Doc.dset item "_id" (.vid st.nextId),
       { isNew := true, changedFields := [] }) := by
  have hNurl := insertedDoc_url sp now st.nextId hN hu
  unfold process_item
  simp only [hu, hold, findOne_append_of_none _ hold, hNurl, if_true,
    eq_self_iff_true, insertedDoc_id]

/-- Shape of `process_item` on an existing identity: diff against the
stored row, bump the version and write one history row exactly when the
diff is non-empty, report `isNew = false` with the diff. -/
theorem process_item_update (st : MongoState) {item : Doc} (sp : String) (now : Nat)
    {u : Value} {d0 : Doc} {n : Int} {idv : Value}
    (hN : (Doc.dkeys item).Nodup)
    (hu : Doc.dget? item "url" = some u)
    (hold : findOne st.main u = some d0)
    (hver : Doc.dget? d0 "version" = some (.vint n))
    (hid : Doc.dget? d0 "_id" = some idv) :
    process_item st item sp now = .ok
      (⟨updateFirst st.main u
          (appliedDoc (setDocOf item sp
            (detect_changes (some d0) (itemDictOf item sp)) (n + 1)) now),
        (if (detect_changes (some d0) (itemDictOf item sp)).isEmpty then st.history
         else save_to_history st.history idv u (itemDictOf item sp)
                (detect_changes (some d0) (itemDictOf item sp)) (n + 1) now),
        st.nextId⟩,
       Doc.dset item "_id" idv,
       { isNew := false,
         changedFields := detect_changes (some d0) (itemDictOf item sp) }) := by
  have hAurl := appliedDoc_url sp (detect_changes (some d0) (itemDictOf item sp))
    (n + 1) now d0 hN hu
  have hfind := findOne_updateFirst_self
    (appliedDoc (setDocOf item sp
      (detect_changes (some d0) (itemDictOf item sp)) (n + 1)) now) hold hAurl
  have hAid : Doc.dget? (appliedDoc (setDocOf item sp
      (detect_changes (some d0) (itemDictOf item sp)) (n + 1)) now d0) "_id" =
      some idv := by
    rw [appliedDoc_id]; exact hid
  unfold process_item
  simp only [hu, hold, hver, hfind, hAid]
end MongoDBPipeline
namespace MongoDBPipeline

theorem findOne_append_of_some {docs : List Doc} {u : Value} {d0 : Doc} (d : Doc)
    (h : findOne docs u = some d0) : findOne (docs ++ [d]) u = some d0 := by
  unfold findOne at h ⊢
  rw [List.find?_append, h]
  rfl

/-- The store invariant behind claim C2: every stored row has an `_id`;
every stored row's `version` is a positive integer `n` and the history
rows for its url carry exactly the versions `1, 2, ..., n` in insertion
order; identities with no stored row have no history; and every
version-1 history row carries the `{'_initial': True}` sentinel. -/
structure Inv (st : MongoState) : Prop where
  ids : ∀ d ∈ st.main, ∃ i, Doc.dget? d "_id" = some i
  verHist : ∀ u d, findOne st.main u = some d →
    ∃ n : Nat, 1 ≤ n ∧ Doc.dget? d "version" = some (.vint (n : Int)) ∧
      (historyFor st u).map (·.version) = (List.range' 1 n).map Int.ofNat
  histDom : ∀ u, findOne st.main u = none → historyFor st u = []
  sentinel : ∀ e ∈ st.history, e.version = 1 → e.changes = initialSentinel

theorem Inv_empty : Inv MongoState.empty := by
  refine ⟨?_, ?_, ?_, ?_⟩
  · intro d hd; exact absurd hd (by simp [MongoState.empty])
  · intro u d hd; exact absurd hd (by simp [MongoState.empty, findOne])
  · intro u _; rfl
  · intro e he; exact absurd he (by simp [MongoState.empty])

theorem historyFor_mk (main : List Doc) (hist : List HistoryDoc) (nid : Nat)
    (u : Value) :
    historyFor ⟨main, hist, nid⟩ u = hist.filter (fun e => decide (e.url = u)) := rfl

theorem historyFor_eq (st : MongoState) (u : Value) :
    historyFor st u = st.history.filter (fun e => decide (e.url = u)) := rfl

theorem filter_hist_append (hist : List HistoryDoc) (e : HistoryDoc) (u : Value) :
    (hist ++ [e]).filter (fun x => decide (x.url = u)) =
      hist.filter (fun x => decide (x.url = u)) ++ (if e.url = u then [e] else []) := by
  rw [List.filter_append]
  congr 1
  by_cases h : e.url = u
  · simp [List.filter, h]
  · simp [List.filter, h]

/-- `process_item` preserves the store invariant (for items that are
genuine Python dicts: no duplicate keys). -/
theorem Inv_process_item {st : MongoState} {item : Doc} {sp : String} {now : Nat}
    {st' : MongoState} {item' : Doc} {o : UpsertOutcome}
    (hInv : Inv st) (hN : (Doc.dkeys item).Nodup)
    (h : process_item st item sp now = .ok (st', item', o)) : Inv st' := by
  cases hu : Doc.dget? item "url" with
  | none =>
    unfold process_item at h
    simp only [hu] at h
    exact Except.noConfusion h
  | some u =>
    cases hold : findOne st.main u with
    | none =>
      rw [process_item_insert st sp now hN hu hold] at h
      cases h
      have hNurl := insertedDoc_url sp now st.nextId hN hu
      have hNver := insertedDoc_version item u sp now st.nextId
      have hHistEmpty : historyFor st u = [] := hInv.histDom u hold
      refine ⟨?_, ?_, ?_, ?_⟩
      · intro d hd
        rcases List.mem_append.mp hd with hd1 | hd2
        · exact hInv.ids d hd1
        · rw [List.mem_singleton.mp hd2]
          exact ⟨.vid st.nextId, insertedDoc_id u _ _ now st.nextId⟩
      · intro u0 d hfind
        cases hold0 : findOne st.main u0 with
        | some dOld =>
          have hne : u0 ≠ u := by
            intro he; rw [he, hold] at hold0; exact Option.noConfusion hold0
          rw [findOne_append_of_some _ hold0] at hfind
          obtain ⟨n, hn1, hn2, hn3⟩ := hInv.verHist u0 dOld hold0
          refine ⟨n, hn1, ?_, ?_⟩
          · rw [← Option.some.inj hfind]; exact hn2
          · rw [historyFor_mk]
            unfold save_to_history
            rw [filter_hist_append,
              if_neg (fun he => hne he.symm), List.append_nil,
              ← historyFor_eq st u0]
            exact hn3
        | none =>
          rw [findOne_append_of_none _ hold0] at hfind
          by_cases hequ : Doc.dget?
              (insertedDoc u (cleanOf item sp) (setOnInsertOf true now) now st.nextId)
              "url" = some u0
          · rw [if_pos hequ] at hfind
            have hu0 : u = u0 := by
              rw [hNurl] at hequ; exact Option.some.inj hequ
            subst hu0
            refine ⟨1, le_refl 1, ?_, ?_⟩
            · rw [← Option.some.inj hfind]
              exact hNver
            · rw [historyFor_mk]
              unfold save_to_history
              rw [filter_hist_append, if_pos rfl,
                ← historyFor_eq st u, hHistEmpty]
              simp [List.range']
          · rw [if_neg hequ] at hfind
            exact Option.noConfusion hfind
      · intro u0 hfind
        have hne : u0 ≠ u := by
          intro he
          subst he
          rw [findOne_append_of_none _ hold, if_pos hNurl] at hfind
          exact Option.noConfusion hfind
        have hold0 : findOne st.main u0 = none := by
          cases hold0 : findOne st.main u0 with
          | none => rfl
          | some dOld =>
            rw [findOne_append_of_some _ hold0] at hfind
            exact Option.noConfusion hfind
        rw [historyFor_mk]
        unfold save_to_history
        rw [filter_hist_append, if_neg (fun he => hne he.symm),
          List.append_nil, ← historyFor_eq st u0]
        exact hInv.histDom u0 hold0
      · intro e he hv
        unfold save_to_history at he
        rcases List.mem_append.mp he with he1 | he2
        · exact hInv.sentinel e he1 hv
        · rw [List.mem_singleton.mp he2]
    | some d0 =>
      obtain ⟨nn, hnn1, hnn2, hnn3⟩ := hInv.verHist u d0 hold
      obtain ⟨idv, hid⟩ := hInv.ids d0 (mem_of_findOne hold)
      rw [process_item_update st sp now hN hu hold hnn2 hid] at h
      cases h
      set ch := detect_changes (some d0) (itemDictOf item sp) with hch
      set A := appliedDoc (setDocOf item sp ch ((nn : Int) + 1)) now with hA
      have hAurl : ∀ d, Doc.dget? d "url" = some u →
          Doc.dget? (A d) "url" = some u :=
        fun d _ => appliedDoc_url sp ch ((nn : Int) + 1) now d hN hu
      have hfind : findOne (updateFirst st.main u A) u = some (A d0) :=
        findOne_updateFirst_self A hold (hAurl d0 (findOne_url hold))
      refine ⟨?_, ?_, ?_, ?_⟩
      · intro d hd
        rcases mem_updateFirst hd with hd1 | ⟨dd, hdd, hddu, rfl⟩
        · exact hInv.ids d hd1
        · obtain ⟨i, hi⟩ := hInv.ids dd hdd
          exact ⟨i, by rw [hA, appliedDoc_id]; exact hi⟩
      · intro u0 d hfind0
        by_cases hequ : u0 = u
        · subst hequ
          rw [hfind] at hfind0
          have hd : d = A d0 := (Option.some.inj hfind0).symm
          subst hd
          by_cases hche : ch.isEmpty = true
          · refine ⟨nn, hnn1, ?_, ?_⟩
            · rw [hA, appliedDoc_version, if_pos hche]
              exact hnn2
            · show (historyFor ⟨_, if ch.isEmpty = true then st.history else _, _⟩ u0).map _ = _
              rw [historyFor_mk, if_pos hche, ← historyFor_eq st u0]
              exact hnn3
          · refine ⟨nn + 1, by omega, ?_, ?_⟩
            · rw [hA, appliedDoc_version, if_neg hche]
              congr 1
            · show (historyFor ⟨_, if ch.isEmpty = true then st.history else _, _⟩ u0).map _ = _
              rw [historyFor_mk, if_neg hche]
              unfold save_to_history
              rw [filter_hist_append, if_pos rfl, ← historyFor_eq st u0,
                List.map_append, hnn3, List.range'_concat]
              simp only [one_mul, List.map_append, List.map_cons, List.map_nil]
              congr 1
              simp only [List.cons.injEq, and_true, Int.ofNat_eq_coe]
              push_cast
              ring
        · have hne : u ≠ u0 := fun he => hequ he.symm
          rw [findOne_updateFirst_other A hne hAurl] at hfind0
          obtain ⟨n, hn1, hn2, hn3⟩ := hInv.verHist u0 d hfind0
          refine ⟨n, hn1, hn2, ?_⟩
          by_cases hche : ch.isEmpty = true
          · show (historyFor ⟨_, if ch.isEmpty = true then st.history else _, _⟩ u0).map _ = _
            rw [historyFor_mk, if_pos hche, ← historyFor_eq st u0]
            exact hn3
          · show (historyFor ⟨_, if ch.isEmpty = true then st.history else _, _⟩ u0).map _ = _
            rw [historyFor_mk, if_neg hche]
            unfold save_to_history
            rw [filter_hist_append, if_neg (fun he => hequ he.symm), List.append_nil,
              ← historyFor_eq st u0]
            exact hn3
      · intro u0 hfind0
        have hne : u0 ≠ u := by
          intro he
          subst he
          rw [hfind] at hfind0
          exact Option.noConfusion hfind0
        rw [findOne_updateFirst_other A (fun he => hne he.symm) hAurl] at hfind0
        have hbase := hInv.histDom u0 hfind0
        by_cases hche : ch.isEmpty = true
        · show historyFor ⟨_, if ch.isEmpty = true then st.history else _, _⟩ u0 = []
          rw [historyFor_mk, if_pos hche, ← historyFor_eq st u0]
          exact hbase
        · show historyFor ⟨_, if ch.isEmpty = true then st.history else _, _⟩ u0 = []
          rw [historyFor_mk, if_neg hche]
          unfold save_to_history
          rw [filter_hist_append, if_neg (fun he => hne he.symm), List.append_nil,
            ← historyFor_eq st u0]
          exact hbase
      · intro e he hv
        by_cases hche : ch.isEmpty = true
        · rw [show (if ch.isEmpty = true then st.history
              else save_to_history st.history idv u (itemDictOf item sp) ch
                ((nn : Int) + 1) now) = st.history from if_pos hche] at he
          exact hInv.sentinel e he hv
        · rw [show (if ch.isEmpty = true then st.history
              else save_to_history st.history idv u (itemDictOf item sp) ch
                ((nn : Int) + 1) now) =
              save_to_history st.history idv u (itemDictOf item sp) ch
                ((nn : Int) + 1) now from if_neg hche] at he
          unfold save_to_history at he
          rcases List.mem_append.mp he with he1 | he2
          · exact hInv.sentinel e he1 hv
          · rw [List.mem_singleton.mp he2] at hv
            simp only at hv
            exfalso
            have : (nn : Int) = 0 := by linarith
            have : nn = 0 := by exact_mod_cast this
            omega

end MongoDBPipeline
namespace MongoDBPipeline

theorem Doc_dset_ne_nil (d : Doc) (k : String) (v : Value) :
    Doc.dset d k v ≠ [] := by
  cases d with
  | nil => simp [Doc.dset]
  | cons p rest =>
    unfold Doc.dset
    by_cases h : p.1 = k <;> simp [h]

theorem Inv_foldl (sp : String) : ∀ (items : List (Doc × Nat)) (st : MongoState),
    Inv st → (∀ p ∈ items, (Doc.dkeys p.1).Nodup) →
    Inv (items.foldl
      (fun st p =>
        match process_item st p.1 sp p.2 with
        | .ok (st', _, _) => st'
        | .error _ => st) st)
  | [], _, hst, _ => hst
  | p :: rest, st, hst, hN => by
    rw [List.foldl_cons]
    refine Inv_foldl sp rest _ ?_ (fun q hq => hN q (List.mem_cons_of_mem p hq))
    cases hres : process_item st p.1 sp p.2 with
    | error e => simpa [hres] using hst
    | ok r =>
      obtain ⟨st', item', o⟩ := r
      simpa [hres] using Inv_process_item hst (hN p (by simp)) hres

theorem Inv_runItems (sp : String) (items : List (Doc × Nat))
    (hN : ∀ p ∈ items, (Doc.dkeys p.1).Nodup) : Inv (runItems sp items) :=
  Inv_foldl sp items MongoState.empty Inv_empty hN

/-- Each `process_item` call appends at most one history row. -/
theorem history_growth {st : MongoState} {item : Doc} {sp : String} {now : Nat}
    {st' : MongoState} {item' : Doc} {o : UpsertOutcome}
    (hInv : Inv st) (hN : (Doc.dkeys item).Nodup)
    (h : process_item st item sp now = .ok (st', item', o)) :
    st'.history.length ≤ st.history.length + 1 := by
  cases hu : Doc.dget? item "url" with
  | none =>
    unfold process_item at h
    simp only [hu] at h
    exact Except.noConfusion h
  | some u =>
    cases hold : findOne st.main u with
    | none =>
      rw [process_item_insert st sp now hN hu hold] at h
      cases h
      simp [save_to_history]
    | some d0 =>
      obtain ⟨nn, _, hnn2, _⟩ := hInv.verHist u d0 hold
      obtain ⟨idv, hid⟩ := hInv.ids d0 (mem_of_findOne hold)
      rw [process_item_update st sp now hN hu hold hnn2 hid] at h
      cases h
      by_cases hche : (detect_changes (some d0) (itemDictOf item sp)).isEmpty = true
      · simp [hche]
      · simp [hche, save_to_history]

end MongoDBPipeline
namespace MongoDBPipeline

theorem ne_of_exclude {k : String} (h : exclude_fields.contains k = false) :
    k ≠ "_id" ∧ k ≠ "updatedAt" ∧ k ≠ "createdAt" ∧ k ≠ "version" ∧
      k ≠ "spider_type" := by
  refine ⟨?_, ?_, ?_, ?_, ?_⟩ <;> (intro he; subst he; revert h; decide)

theorem system_not_contains {k : String}
    (h1 : k ≠ "_id") (h2 : k ≠ "createdAt") (h3 : k ≠ "updatedAt")
    (h4 : k ≠ "version") : system_fields.contains k = false := by
  rw [Bool.eq_false_iff]
  intro hc
  rcases (by simpa [system_fields] using hc :
      k = "_id" ∨ k = "createdAt" ∨ k = "updatedAt" ∨ k = "version") with h | h | h | h
  exacts [h1 h, h2 h, h3 h, h4 h]

theorem detect_changes_some (od nd : Doc) :
    detect_changes (some od) nd =
      if od.isEmpty then [] else detect_changes_loop od nd (Doc.dkeys nd) [] := rfl

/-- Re-upserting the very same item against the row it just inserted
yields an empty field diff: every non-system field of the new `item_dict`
compares equal to what the insert stored. -/
theorem detect_changes_after_insert (st : MongoState) {item : Doc} (sp : String)
    (now : Nat) (u : Value) (hN : (Doc.dkeys item).Nodup) :
    detect_changes
      (some (insertedDoc u (cleanOf item sp) (setOnInsertOf true now) now st.nextId))
      (itemDictOf item sp) = [] := by
  rw [detect_changes_some, if_neg (by
    unfold insertedDoc
    intro hvia
    rw [List.isEmpty_iff] at hvia
    exact Doc_dset_ne_nil _ _ _ hvia)]
  apply detect_changes_loop_acc
  intro k hk hkex
  obtain ⟨hid, hupd, hcrt, hver, hspt⟩ := ne_of_exclude hkex
  have hsys := system_not_contains hid hcrt hupd hver
  have hkitem : k ∈ Doc.dkeys item := by
    unfold itemDictOf at hk
    rw [Doc.dkeys_dset] at hk
    by_cases hsp : Doc.dhas item "spider_type" = true
    · rwa [if_pos hsp] at hk
    · rw [if_neg hsp] at hk
      rcases List.mem_append.mp hk with h | h
      · exact h
      · exact absurd (List.mem_singleton.mp h) hspt
  obtain ⟨v, hv⟩ : ∃ v, Doc.dget? item k = some v := by
    have := Doc.dhas_iff_mem_dkeys.mpr hkitem
    rwa [Doc.dhas, Option.isSome_iff_exists] at this
  have hnd : Doc.dget? (itemDictOf item sp) k = some v := by
    rw [itemDictOf_dget?_other item sp hspt]; exact hv
  have hNk : Doc.dget?
      (insertedDoc u (cleanOf item sp) (setOnInsertOf true now) now st.nextId) k =
      some v := by
    rw [insertedDoc_dget? u _ _ now st.nextId hid hupd
      (setOnInsertOf_dlast true now hcrt hver)]
    rw [cleanOf_dlast sp k hN, cleanOf_dget?, if_neg (by simpa using hsys),
      itemDictOf_dget?_other item sp hspt, hv]
  show Doc.dget _ k = Doc.dget _ k
  rw [Doc.dget, Doc.dget, hNk, hnd]

/-- **C1**: upsert is idempotent for an existing identity.  The first
`process_item` call for a fresh url inserts the row with `version = 1`,
writes one history row, and observes `isNew = true`.  Re-processing the
identical item then writes no new history row, leaves the stored
`version` at 1, and observes `isNew = false` with an empty `changedFields`
diff. -/
theorem C1_upsert_idempotent (st : MongoState) (item : Doc) (sp : String)
    (u : Value) (t1 t2 : Nat)
    (hN : (Doc.dkeys item).Nodup)
    (hu : Doc.dget? item "url" = some u)
    (hfresh : findOne st.main u = none) :
    ∃ st1 item1 o1 st2 item2 o2 d1 d2,
      process_item st item sp t1 = .ok (st1, item1, o1) ∧
      o1.isNew = true ∧ o1.changedFields = [] ∧
      findOne st1.main u = some d1 ∧
      Doc.dget? d1 "version" = some (.vint 1) ∧
      st1.history.length = st.history.length + 1 ∧
      process_item st1 item sp t2 = .ok (st2, item2, o2) ∧
      o2.isNew = false ∧ o2.changedFields = [] ∧
      st2.history = st1.history ∧
      findOne st2.main u = some d2 ∧
      Doc.dget? d2 "version" = some (.vint 1) := by
  have hins := process_item_insert st sp t1 hN hu hfresh
  have hNurl := insertedDoc_url sp t1 st.nextId hN hu
  have hNver := insertedDoc_version item u sp t1 st.nextId
  have hNid := insertedDoc_id u (cleanOf item sp) (setOnInsertOf true t1) t1 st.nextId
  have hfind1 : findOne
      (st.main ++ [insertedDoc u (cleanOf item sp) (setOnInsertOf true t1) t1 st.nextId]) u =
      some (insertedDoc u (cleanOf item sp) (setOnInsertOf true t1) t1 st.nextId) := by
    rw [findOne_append_of_none _ hfresh, if_pos hNurl]
  have hch0 := detect_changes_after_insert st sp t1 u hN
  have hupd := process_item_update
    (⟨st.main ++ [insertedDoc u (cleanOf item sp) (setOnInsertOf true t1) t1 st.nextId],
            save_to_history st.history (.vid st.nextId) u (itemDictOf item sp)
              initialSentinel 1 t1,
            st.nextId + 1⟩)
    sp t2 hN hu hfind1 hNver hNid
  rw [hch0] at hupd
  simp only [List.isEmpty_nil, if_true] at hupd
  have hAurl : Doc.dget? (appliedDoc (setDocOf item sp [] (1 + 1)) t2
      (insertedDoc u (cleanOf item sp) (setOnInsertOf true t1) t1 st.nextId)) "url" =
      some u :=
    appliedDoc_url sp [] (1 + 1) t2 _ hN hu
  have hfind2 := findOne_updateFirst_self
    (appliedDoc (setDocOf item sp [] (1 + 1)) t2) hfind1 hAurl
  have hAver : Doc.dget? (appliedDoc (setDocOf item sp [] (1 + 1)) t2
      (insertedDoc u (cleanOf item sp) (setOnInsertOf true t1) t1 st.nextId)) "version" =
      some (.vint 1) := by
    rw [appliedDoc_version, if_pos (by decide)]
    exact hNver
  refine ⟨_, _, _, _, _, _, _, _, hins, rfl, rfl, hfind1, hNver, ?_, hupd, rfl, rfl,
    rfl, hfind2, hAver⟩
  simp [save_to_history]

end MongoDBPipeline
namespace MongoDBPipeline

/-- **C2**: for every identity the history rows written by the store form
exactly the version sequence `1..N` with no gaps or duplicates, where `N`
is the stored Product's `version`; the version-1 row carries the
`{'_initial': True}` sentinel instead of a field diff; and every
`process_item` call writes at most one history row. -/
theorem C2_history_version_sequence (sp : String) (items : List (Doc × Nat))
    (hN : ∀ p ∈ items, (Doc.dkeys p.1).Nodup) :
    (∀ u d, findOne (runItems sp items).main u = some d →
       ∃ n : Nat, 1 ≤ n ∧ Doc.dget? d "version" = some (.vint (n : Int)) ∧
         (historyFor (runItems sp items) u).map (·.version) =
           (List.range' 1 n).map Int.ofNat ∧
         ∀ e ∈ historyFor (runItems sp items) u, e.version = 1 →
           e.changes = initialSentinel) ∧
    (∀ (st : MongoState) (item : Doc) (now : Nat) (st' : MongoState)
       (item' : Doc) (o : UpsertOutcome),
       Inv st → (Doc.dkeys item).Nodup →
       process_item st item sp now = .ok (st', item', o) →
       st'.history.length ≤ st.history.length + 1) := by
  have hInv := Inv_runItems sp items hN
  constructor
  · intro u d hf
    obtain ⟨n, hn1, hn2, hn3⟩ := hInv.verHist u d hf
    refine ⟨n, hn1, hn2, hn3, ?_⟩
    intro e he hv
    refine hInv.sentinel e ?_ hv
    rw [historyFor_eq] at he
    exact List.mem_of_mem_filter he
  · intro st item now st' item' o hi hnod h
    exact history_growth hi hnod h

/-- Witness for C2: two upserts of the same url, the second changing
`price`. -/
theorem C2_history_version_sequence_witness :
    (∀ u d, findOne (runItems "product"
        [([("url", Value.vstr "https://x/1"), ("price", Value.vstr "")], 0),
         ([("url", Value.vstr "https://x/1"), ("price", Value.vstr "¥500")], 1)]).main
        u = some d →
       ∃ n : Nat, 1 ≤ n ∧ Doc.dget? d "version" = some (.vint (n : Int)) ∧
         (historyFor (runItems "product"
            [([("url", Value.vstr "https://x/1"), ("price", Value.vstr "")], 0),
             ([("url", Value.vstr "https://x/1"), ("price", Value.vstr "¥500")], 1)])
            u).map (·.version) = (List.range' 1 n).map Int.ofNat ∧
         ∀ e ∈ historyFor (runItems "product"
            [([("url", Value.vstr "https://x/1"), ("price", Value.vstr "")], 0),
             ([("url", Value.vstr "https://x/1"), ("price", Value.vstr "¥500")], 1)])
            u, e.version = 1 → e.changes = initialSentinel) ∧
    (∀ (st : MongoState) (item : Doc) (now : Nat) (st' : MongoState)
       (item' : Doc) (o : UpsertOutcome),
       Inv st → (Doc.dkeys item).Nodup →
       process_item st item "product" now = .ok (st', item', o) →
       st'.history.length ≤ st.history.length + 1) :=
  C2_history_version_sequence "product"
    [([("url", Value.vstr "https://x/1"), ("price", Value.vstr "")], 0),
     ([("url", Value.vstr "https://x/1"), ("price", Value.vstr "¥500")], 1)]
    (by intro p hp; fin_cases hp <;> decide)

/-- **C7**: the store's field diff excludes exactly the system fields
(`_id`, `updatedAt`, `createdAt`, `version`, `spider_type`); for every
other key present in the new record the diff records the old and new
values exactly when they differ under structural (deep) equality; and a
missing/None value versus an empty string is reported as a change. -/
theorem C7_detect_changes_diff (old new : Doc) (hne : old ≠ []) :
    exclude_fields = ["_id", "updatedAt", "createdAt", "version", "spider_type"] ∧
    (∀ k, exclude_fields.contains k = true →
       Doc.dget? (detect_changes (some old) new) k = none) ∧
    (∀ k, exclude_fields.contains k = false → k ∈ Doc.dkeys new →
       Doc.dget? (detect_changes (some old) new) k =
         (if Doc.dget old k = Doc.dget new k then none
          else some (.vobj [("old", Doc.dget old k), ("new", Doc.dget new k)]))) ∧
    (∀ a b : Value, a = b ↔ Value.beq a b = true) ∧
    (∀ k, exclude_fields.contains k = false → k ∈ Doc.dkeys new →
       Doc.dget? old k = none → Doc.dget new k = .vstr "" →
       Doc.dget? (detect_changes (some old) new) k =
         some (.vobj [("old", .vnone), ("new", .vstr "")])) := by
  have hnemp : old.isEmpty = false := by
    cases old with
    | nil => exact absurd rfl hne
    | cons a l => rfl
  have hloop := fun k => detect_changes_loop_dget? old new (Doc.dkeys new) [] k
  refine ⟨rfl, ?_, ?_, fun a b => (Value.beq_iff_eq a b).symm, ?_⟩
  · intro k hk
    rw [detect_changes_some, if_neg (by simp [hnemp]), hloop k,
      if_neg (by rintro ⟨_, h2, _⟩; rw [hk] at h2; exact Bool.noConfusion h2)]
    rfl
  · intro k hkex hkmem
    rw [detect_changes_some, if_neg (by simp [hnemp]), hloop k]
    by_cases heq : Doc.dget old k = Doc.dget new k
    · rw [if_pos heq, if_neg (by rintro ⟨_, _, h3⟩; exact h3 heq)]
      rfl
    · rw [if_neg heq, if_pos ⟨hkmem, hkex, heq⟩]
  · intro k hkex hkmem hmiss hempty
    have hgo : Doc.dget old k = .vnone := by rw [Doc.dget, hmiss]; rfl
    rw [detect_changes_some, if_neg (by simp [hnemp]), hloop k,
      if_pos ⟨hkmem, hkex, by rw [hgo, hempty]; intro hcon; exact Value.noConfusion hcon⟩,
      hgo, hempty]

/-- Witness for C7 on a stored row whose `price` is absent while the new
record carries the empty string. -/
theorem C7_detect_changes_diff_witness :
    exclude_fields = ["_id", "updatedAt", "createdAt", "version", "spider_type"] ∧
    (∀ k, exclude_fields.contains k = true →
       Doc.dget? (detect_changes (some [("url", Value.vstr "https://x/1")])
         [("url", Value.vstr "https://x/1"), ("price", Value.vstr "")]) k = none) ∧
    (∀ k, exclude_fields.contains k = false →
       k ∈ Doc.dkeys [("url", Value.vstr "https://x/1"), ("price", Value.vstr "")] →
       Doc.dget? (detect_changes (some [("url", Value.vstr "https://x/1")])
         [("url", Value.vstr "https://x/1"), ("price", Value.vstr "")]) k =
         (if Doc.dget [("url", Value.vstr "https://x/1")] k =
             Doc.dget [("url", Value.vstr "https://x/1"), ("price", Value.vstr "")] k
          then none
          else some (.vobj
            [("old", Doc.dget [("url", Value.vstr "https://x/1")] k),
             ("new", Doc.dget [("url", Value.vstr "https://x/1"),
               ("price", Value.vstr "")] k)]))) ∧
    (∀ a b : Value, a = b ↔ Value.beq a b = true) ∧
    (∀ k, exclude_fields.contains k = false →
       k ∈ Doc.dkeys [("url", Value.vstr "https://x/1"), ("price", Value.vstr "")] →
       Doc.dget? [("url", Value.vstr "https://x/1")] k = none →
       Doc.dget [("url", Value.vstr "https://x/1"), ("price", Value.vstr "")] k =
         .vstr "" →
       Doc.dget? (detect_changes (some [("url", Value.vstr "https://x/1")])
         [("url", Value.vstr "https://x/1"), ("price", Value.vstr "")]) k =
         some (.vobj [("old", .vnone), ("new", .vstr "")])) :=
  C7_detect_changes_diff [("url", Value.vstr "https://x/1")]
    [("url", Value.vstr "https://x/1"), ("price", Value.vstr "")] (by decide)

/-- Witness for C1 on the spec's scenario record. -/
theorem C1_upsert_idempotent_witness :
    ∃ st1 item1 o1 st2 item2 o2 d1 d2,
      process_item MongoState.empty
        [("source", Value.vstr "bsp_prize"), ("name", Value.vstr "Figure A"),
         ("url", Value.vstr "https://x/1")] "product" 0 = .ok (st1, item1, o1) ∧
      o1.isNew = true ∧ o1.changedFields = [] ∧
      findOne st1.main (Value.vstr "https://x/1") = some d1 ∧
      Doc.dget? d1 "version" = some (.vint 1) ∧
      st1.history.length = MongoState.empty.history.length + 1 ∧
      process_item st1
        [("source", Value.vstr "bsp_prize"), ("name", Value.vstr "Figure A"),
         ("url", Value.vstr "https://x/1")] "product" 1 = .ok (st2, item2, o2) ∧
      o2.isNew = false ∧ o2.changedFields = [] ∧
      st2.history = st1.history ∧
      findOne st2.main (Value.vstr "https://x/1") = some d2 ∧
      Doc.dget? d2 "version" = some (.vint 1) :=
  C1_upsert_idempotent MongoState.empty
    [("source", Value.vstr "bsp_prize"), ("name", Value.vstr "Figure A"),
     ("url", Value.vstr "https://x/1")] "product" (Value.vstr "https://x/1") 0 1
    (by decide) (by decide) (by decide)

end MongoDBPipeline
/-! ## The mapper registry: `toy_news/toy_news/items.py` -/

mutual

/-- Python `str(v)` for the embedded values, as used by the mappers'
f-strings (`f"{product['name']}|{product['url']}"`): `str(None)` is
`"None"`, strings are themselves, containers use `repr` on elements. -/
def Value.pyStr : Value → String
  | .vnone => "None"
  | .vbool b => if b then "True" else "False"
  | .vint n => toString n
  | .vstr s => s
  | .vid n => toString n
  | .vdate t => toString t
  | .vlist l => "[" ++ Value.pyReprList l ++ "]"
  | .vobj l => "\x7b" ++ Value.pyReprObj l ++ "\x7d"

/-- Python `repr(v)` (only the pieces `str` of containers needs). -/
def Value.pyRepr : Value → String
  | .vstr s => "'" ++ s ++ "'"
  | .vnone => "None"
  | .vbool b => if b then "True" else "False"
  | .vint n => toString n
  | .vid n => toString n
  | .vdate t => toString t
  | .vlist l => "[" ++ Value.pyReprList l ++ "]"
  | .vobj l => "\x7b" ++ Value.pyReprObj l ++ "\x7d"

def Value.pyReprList : List Value → String
  | [] => ""
  | [x] => Value.pyRepr x
  | x :: rest => Value.pyRepr x ++ ", " ++ Value.pyReprList rest

def Value.pyReprObj : List (String × Value) → String
  | [] => ""
  | [(k, v)] => "'" ++ k ++ "': " ++ Value.pyRepr v
  | (k, v) :: rest => "'" ++ k ++ "': " ++ Value.pyRepr v ++ ", " ++ Value.pyReprObj rest

end

/-- Python `v + s` for a string right operand: defined only when `v` is a
string, otherwise `TypeError` (this is what `product['spider_name'] + '_'`
raises when `spider_name` is missing, i.e. `None`). -/
def pyAddStr : Value → String → Except String String
  | .vstr s, t => .ok (s ++ t)
  | _, _ => .error "TypeError: unsupported operand type(s) for +"

namespace DataMapper

/-- `DataMapper._generate_hash` (items.py lines 71-74): md5 hexdigest
truncated to 8 characters.  The md5 digest itself is kept abstract as the
`md5Hex` parameter. -/
def generate_hash (md5Hex : String → String) (text : String) : String :=
  (md5Hex text).take 8

/-- A registered mapper function: raw record to Product, or a Python
exception.  In the mappers below, reads of fields the mapper itself just
assigned (`product['spider_name']`, `product['name']`, `product['url']`,
`product['source']`) are written as the values they were assigned from,
which is what Python's dict lookup returns there. -/
abbrev Mapper := Doc → Except String Doc

/-- `DataMapper.map_bsp_prize_to_product` (items.py lines 99-123). -/
def map_bsp_prize_to_product (md5Hex : String → String) (raw_item : Doc) :
    Except String Doc :=
  let product : Doc := [
    ("source", .vstr "bsp_prize"),
    ("spider_name", Doc.dget raw_item "spider_name"),
    ("url", Doc.dget raw_item "url"),
    ("ip", Doc.dget raw_item "ip"),
    ("name", Doc.dget raw_item "title"),
    ("description", Doc.dgetD raw_item "desc" (.vstr "")),
    ("price", .vstr ""),
    ("category", .vstr "Prize Figure"),
    ("release_date", Doc.dget raw_item "releaseDate"),
    ("manufacturer", .vstr "Banpresto"),
    ("images", Doc.dgetD raw_item "gallery" (.vlist [])),
    ("cdn_keys", Doc.dgetD raw_item "cdn_keys" (.vlist []))]
  match pyAddStr (Doc.dget raw_item "spider_name") "_" with
  | .error e => .error e
  | .ok pfx =>
    .ok (Doc.dset product "product_hash" (.vstr (pfx ++ generate_hash md5Hex
      (Value.pyStr (Doc.dget raw_item "title") ++ "|" ++
        Value.pyStr (Doc.dget raw_item "url")))))

/-- `DataMapper.map_jump_cal_to_product` (items.py lines 76-97). -/
def map_jump_cal_to_product (md5Hex : String → String) (raw_item : Doc) :
    Except String Doc :=
  let product : Doc := [
    ("source", .vstr "jump_cal"),
    ("spider_name", Doc.dget raw_item "spider_name"),
    ("url", Doc.dget raw_item "url"),
    ("ip", Doc.dget raw_item "ip"),
    ("name", Doc.dget raw_item "goodsName"),
    ("description", Doc.dgetD raw_item "genre" (.vstr "")),
    ("price", Doc.dget raw_item "price"),
    ("category", Doc.dget raw_item "genre"),
    ("release_date", Doc.dget raw_item "releaseDate"),
    ("manufacturer", Doc.dget raw_item "maker")]
  match pyAddStr (Doc.dget raw_item "spider_name") "_" with
  | .error e => .error e
  | .ok pfx =>
    .ok (Doc.dset product "product_hash" (.vstr (pfx ++ generate_hash md5Hex
      (Value.pyStr (Doc.dget raw_item "goodsName") ++ "|" ++
        Value.pyStr (Doc.dget raw_item "url")))))

/-- `DataMapper.map_bandai_hobby_to_product` (items.py lines 125-149). -/
def map_bandai_hobby_to_product (md5Hex : String → String) (raw_item : Doc) :
    Except String Doc :=
  let product : Doc := [
    ("source", .vstr "bandai_hobby"),
    ("spider_name", Doc.dget raw_item "spider_name"),
    ("url", Doc.dget raw_item "url"),
    ("ip", Doc.dget raw_item "ip"),
    ("name", Doc.dget raw_item "title"),
    ("description", Doc.dgetD raw_item "desc" (.vstr "")),
    ("price", Doc.dget raw_item "price"),
    ("category", .vstr "Bandai Hobby"),
    ("release_date", Doc.dget raw_item "releaseDate"),
    ("manufacturer", .vstr "Bandai"),
    ("images", Doc.dgetD raw_item "gallery" (.vlist [])),
    ("cdn_keys", Doc.dgetD raw_item "cdn_keys" (.vlist []))]
  match pyAddStr (Doc.dget raw_item "spider_name") "_" with
  | .error e => .error e
  | .ok pfx =>
    .ok (Doc.dset product "product_hash" (.vstr (pfx ++ generate_hash md5Hex
      (Value.pyStr (Doc.dget raw_item "title") ++ "|" ++
        Value.pyStr (Doc.dget raw_item "url")))))

/-- `DataMapper.map_op_base_shop_to_product` (items.py lines 151-175). -/
def map_op_base_shop_to_product (md5Hex : String → String) (raw_item : Doc) :
    Except String Doc :=
  let product : Doc := [
    ("source", .vstr "op_base_shop"),
    ("spider_name", Doc.dget raw_item "spider_name"),
    ("url", Doc.dget raw_item "url"),
    ("ip", Doc.dget raw_item "ip"),
    ("name", Doc.dget raw_item "title"),
    ("description", Doc.dgetD raw_item "desc" (.vstr "")),
    ("price", Doc.dget raw_item "price"),
    ("category", Doc.dget raw_item "category"),
    ("release_date", Doc.dget raw_item "releaseDate"),
    ("images", Doc.dgetD raw_item "images" (.vlist [])),
    ("cdn_keys", Doc.dgetD raw_item "cdn_keys" (.vlist []))]
  match pyAddStr (Doc.dget raw_item "spider_name") "_" with
  | .error e => .error e
  | .ok pfx =>
    .ok (Doc.dset product "product_hash" (.vstr (pfx ++ generate_hash md5Hex
      (Value.pyStr (Doc.dget raw_item "title") ++ "|" ++
        Value.pyStr (Doc.dget raw_item "url")))))

/-- `DataMapper.map_tamashii_web_to_product` (items.py lines 177-208). -/
def map_tamashii_web_to_product (md5Hex : String → String) (raw_item : Doc) :
    Except String Doc :=
  let product : Doc := [
    ("source", .vstr "tamashii_web"),
    ("spider_name", Doc.dget raw_item "spider_name"),
    ("url", Doc.dget raw_item "url"),
    ("ip", Doc.dget raw_item "ip"),
    ("name", Doc.dget raw_item "title"),
    ("price", Doc.dget raw_item "price"),
    ("category", Doc.dget raw_item "category"),
    ("release_date", Doc.dget raw_item "releaseDate"),
    ("images", Doc.dgetD raw_item "images" (.vlist [])),
    ("description", Doc.dgetD raw_item "desc" (.vstr "")),
    ("cdn_keys", Doc.dgetD raw_item "cdn_keys" (.vlist []))]
  match pyAddStr (Doc.dget raw_item "spider_name") "_" with
  | .error e => .error e
  | .ok pfx =>
    .ok (Doc.dset (Doc.dset product "product_hash"
      (.vstr (pfx ++ generate_hash md5Hex
        (Value.pyStr (Doc.dget raw_item "title") ++ "|" ++
          Value.pyStr (Doc.dget raw_item "url")))))
      "extra_fields" (.vlist [
        .vobj [("key", .vstr "salesForm"), ("label", .vstr "販売方法"),
               ("value", Doc.dget raw_item "salesForm")],
        .vobj [("key", .vstr "openDate"), ("label", .vstr "预订开始日期"),
               ("value", Doc.dget raw_item "openDate")]]))

/-- `DataMapper.map_ramen_toy_to_product` (items.py lines 210-229). -/
def map_ramen_toy_to_product (md5Hex : String → String) (raw_item : Doc) :
    Except String Doc :=
  let product : Doc := [
    ("source", .vstr "ramen_toy"),
    ("spider_name", Doc.dget raw_item "spider_name"),
    ("url", Doc.dget raw_item "url"),
    ("ip", Doc.dget raw_item "ip"),
    ("name", Doc.dget raw_item "title"),
    ("price", Doc.dget raw_item "price"),
    ("images", Doc.dgetD raw_item "images" (.vlist [])),
    ("description", Doc.dgetD raw_item "desc" (.vstr "")),
    ("cdn_keys", Doc.dgetD raw_item "cdn_keys" (.vlist []))]
  match pyAddStr (Doc.dget raw_item "spider_name") "_" with
  | .error e => .error e
  | .ok pfx =>
    .ok (Doc.dset product "product_hash" (.vstr (pfx ++ generate_hash md5Hex
      (Value.pyStr (Doc.dget raw_item "title") ++ "|" ++
        Value.pyStr (Doc.dget raw_item "url")))))

/-- `DataMapper.map_dengeki_hobby_to_product` (items.py lines 231-267):
the only mapper whose hash prefix is the constant `source` tag rather
than `spider_name`. -/
def map_dengeki_hobby_to_product (md5Hex : String → String) (raw_item : Doc) :
    Except String Doc :=
  let product : Doc := [
    ("source", .vstr "blog_dengeki_hobby"),
    ("spider_name", Doc.dget raw_item "spider_name"),
    ("url", Doc.dget raw_item "url"),
    ("ip", Doc.dget raw_item "ip"),
    ("name", Doc.dget raw_item "title"),
    ("description", Doc.dgetD raw_item "content" (.vstr "")),
    ("price", .vstr ""),
    ("category", Doc.dgetD raw_item "category" (.vstr "GUNPLA")),
    ("release_date", Doc.dget raw_item "publish_date"),
    ("manufacturer", .vstr "Bandai"),
    ("images", Doc.dgetD raw_item "images" (.vlist [])),
    ("cdn_keys", Doc.dgetD raw_item "cdn_keys" (.vlist []))]
  match pyAddStr (Value.vstr "blog_dengeki_hobby") "_" with
  | .error e => .error e
  | .ok pfx =>
    .ok (Doc.dset (Doc.dset product "product_hash"
      (.vstr (pfx ++ generate_hash md5Hex
        (Value.pyStr (Doc.dget raw_item "title") ++ "|" ++
          Value.pyStr (Doc.dget raw_item "url")))))
      "extra_fields" (.vlist [
        .vobj [("key", .vstr "author"), ("label", .vstr "作者"),
               ("value", Doc.dget raw_item "author")],
        .vobj [("key", .vstr "summary"), ("label", .vstr "摘要"),
               ("value", Doc.dgetD raw_item "summary" (.vstr ""))]]))

/-- The `_MAPPERS` registry filled by the `@register_mapper` decorators. -/
def mapperFor (md5Hex : String → String) : String → Option Mapper
  | "jump_cal" => some (map_jump_cal_to_product md5Hex)
  | "bsp_prize" => some (map_bsp_prize_to_product md5Hex)
  | "bandai_hobby" => some (map_bandai_hobby_to_product md5Hex)
  | "op_base_shop" => some (map_op_base_shop_to_product md5Hex)
  | "tamashii_web" => some (map_tamashii_web_to_product md5Hex)
  | "ramen_toy" => some (map_ramen_toy_to_product md5Hex)
  | "blog_dengeki_hobby" => some (map_dengeki_hobby_to_product md5Hex)
  | _ => none

/-- `DataMapper.map_to_product` (items.py lines 55-61): look up the mapper
for the source tag and invoke it; `None` when no mapper is registered. -/
def map_to_product (md5Hex : String → String) (raw_item : Doc) (source : String) :
    Except String (Option Doc) :=
  match mapperFor md5Hex source with
  | some mapper => (mapper raw_item).map some
  | none => .ok none

end DataMapper
namespace DataMapper

/-- **C9 counterexample**: the registered `bsp_prize` mapper is not total
on records with missing fields — on the empty raw record,
`product['spider_name'] + '_'` is `None + '_'` and raises `TypeError`, so
no Product (and no `product_hash`) is constructible, contradicting the
claim that a registered mapper never throws for missing fields. -/
theorem C9_counterexample :
    map_to_product (fun s => s) [] "bsp_prize" =
      .error "TypeError: unsupported operand type(s) for +" := by rfl

/-- A raw record carrying `title` and `url` but no `spider_name`. -/
def c9raw : Doc := [("title", .vstr "Figure A"), ("url", .vstr "https://x/1")]

/-- **C9 (amended)**: `map_to_product` dispatches through the registry —
the benign `None` result (logged and dropped by the normalization
pipeline) when no mapper is registered for the source tag, the mapper's
product otherwise; registered mappers substitute empty/default values
for most missing fields, but every mapper except
`map_dengeki_hobby_to_product` computes its `product_hash` prefix as
`raw_item.get('spider_name') + '_'`, which raises `TypeError` when
`spider_name` is missing (`None`), while `map_dengeki_hobby_to_product`
prefixes the constant `'blog_dengeki_hobby'` source tag and constructs
its product, hash included, even without `spider_name`. -/
theorem C9_mapper_registry (md5Hex : String → String) (raw : Doc) (source : String) :
    (mapperFor md5Hex source = none →
       map_to_product md5Hex raw source = .ok none) ∧
    (∀ m, mapperFor md5Hex source = some m →
       map_to_product md5Hex raw source = (m raw).map some) ∧
    (∀ s, Doc.dget raw "spider_name" = .vstr s →
       ∃ p, map_bsp_prize_to_product md5Hex raw = .ok p ∧
         Doc.dget? p "product_hash" =
           some (.vstr (s ++ "_" ++ generate_hash md5Hex
             (Value.pyStr (Doc.dget raw "title") ++ "|" ++
               Value.pyStr (Doc.dget raw "url"))))) ∧
    (Doc.dget? raw "spider_name" = none →
       map_jump_cal_to_product md5Hex raw =
         .error "TypeError: unsupported operand type(s) for +" ∧
       map_bsp_prize_to_product md5Hex raw =
         .error "TypeError: unsupported operand type(s) for +" ∧
       map_bandai_hobby_to_product md5Hex raw =
         .error "TypeError: unsupported operand type(s) for +" ∧
       map_op_base_shop_to_product md5Hex raw =
         .error "TypeError: unsupported operand type(s) for +" ∧
       map_tamashii_web_to_product md5Hex raw =
         .error "TypeError: unsupported operand type(s) for +" ∧
       map_ramen_toy_to_product md5Hex raw =
         .error "TypeError: unsupported operand type(s) for +") ∧
    (∃ p, map_dengeki_hobby_to_product md5Hex raw = .ok p ∧
       Doc.dget? p "product_hash" =
         some (.vstr ("blog_dengeki_hobby_" ++ generate_hash md5Hex
           (Value.pyStr (Doc.dget raw "title") ++ "|" ++
             Value.pyStr (Doc.dget raw "url"))))) := by
  refine ⟨?_, ?_, ?_, ?_, ?_⟩
  · intro h
    unfold map_to_product
    rw [h]
  · intro m h
    unfold map_to_product
    rw [h]
  · intro s hs
    unfold map_bsp_prize_to_product
    rw [show pyAddStr (Doc.dget raw "spider_name") "_" = .ok (s ++ "_") from by
      rw [hs]; rfl]
    refine ⟨_, rfl, ?_⟩
    rw [Doc.dget?_dset_self]
  · intro h
    have he : pyAddStr (Doc.dget raw "spider_name") "_" =
        .error "TypeError: unsupported operand type(s) for +" := by
      rw [Doc.dget, h]; rfl
    refine ⟨?_, ?_, ?_, ?_, ?_, ?_⟩
    · unfold map_jump_cal_to_product; rw [he]
    · unfold map_bsp_prize_to_product; rw [he]
    · unfold map_bandai_hobby_to_product; rw [he]
    · unfold map_op_base_shop_to_product; rw [he]
    · unfold map_tamashii_web_to_product; rw [he]
    · unfold map_ramen_toy_to_product; rw [he]
  · refine ⟨_, rfl, ?_⟩
    rw [Doc.dget?_dset_other _ _ (by decide), Doc.dget?_dset_self]
    rfl

/-- Witness for C9 at the record without `spider_name`: the `bsp_prize`
mapper raises `TypeError` there while the `dengeki_hobby` mapper returns
a product with its constant-prefixed hash (identity standing in for the
md5 hex digest). -/
theorem C9_mapper_registry_witness :
    map_bsp_prize_to_product (fun s => s) c9raw =
      .error "TypeError: unsupported operand type(s) for +" ∧
    ∃ p, map_dengeki_hobby_to_product (fun s => s) c9raw = .ok p ∧
      Doc.dget? p "product_hash" =
        some (.vstr ("blog_dengeki_hobby_" ++ generate_hash (fun s => s)
          (Value.pyStr (Doc.dget c9raw "title") ++ "|" ++
            Value.pyStr (Doc.dget c9raw "url")))) :=
  ⟨((C9_mapper_registry (fun s => s) c9raw "bsp_prize").2.2.2.1 rfl).2.1,
   (C9_mapper_registry (fun s => s) c9raw "bsp_prize").2.2.2.2⟩

end DataMapper
/-! ## Notification decisions: `normalization.py`, `notify.py`,
`jump_cal/pipelines/jump_cal.py` -/

namespace DataNormalizationPipeline

/-- One entry of `spider.notify_meta` as written by
`_normalize_product_and_save` (normalization.py lines 130-142):
`enable`/`isNew` are both `result.upserted_id is not None`, and the
channel type is `image_text` exactly when `normalized_data.get('images')`
is truthy. -/
structure NotifyMeta where
  enable : Bool
  isNew : Bool
  type : String
deriving Repr, DecidableEq

/-- normalization.py lines 137-141. -/
def notify_meta_entry (is_new : Bool) (normalized_data : Doc) : NotifyMeta :=
  { enable := is_new, isNew := is_new,
    type := if (Doc.dget normalized_data "images").truthy then "image_text" else "text" }

end DataNormalizationPipeline

namespace NotifyPipeline

/-- Whether `NotifyPipeline.process_item` (notify.py lines 17-30) sends
any notification: it returns early unless a meta entry exists for the
item's `product_hash` and its `enable` flag is set. -/
def shouldNotify (notify_data : Option DataNormalizationPipeline.NotifyMeta) : Bool :=
  match notify_data with
  | none => false
  | some nd => nd.enable

/-- notify.py lines 27-30. -/
def titleOf (nd : DataNormalizationPipeline.NotifyMeta) : String :=
  if nd.isNew then "新增数据" else "更新数据"

/-- notify.py lines 33-46: the image-text channel is chosen exactly when
the meta `type` is `image_text`. -/
def channelOf (nd : DataNormalizationPipeline.NotifyMeta) : String :=
  if nd.type = "image_text" then "image_text" else "text"

end NotifyPipeline

/-- The notification predicate claim C8 asserts, written from the spec's
words: "`shouldNotify` is true if `isNew` or `changedFields` is non-empty
and contains at least one business-meaningful field (price, release
date)". -/
def claimShouldNotify (isNew : Bool) (changedFields : Doc) : Bool :=
  isNew || (!changedFields.isEmpty &&
    (Doc.dhas changedFields "price" || Doc.dhas changedFields "release_date"))

namespace JumpCalMongoPipeline

/-- The outbound notification `JumpCalMongoPipeline.process_item` fires. -/
inductive NotifyKind where
  | update
  | new
  | nothing
deriving Repr, DecidableEq

/-- `old_data["price"] != adapter['price'] or old_data['releaseDate'] !=
adapter['releaseDate']` (jump_cal.py lines 119-120), with Python's
KeyError on missing keys and left-to-right short-circuit. -/
def priceOrDateChanged (od adapter : Doc) : Except String Bool := do
  let po ← Doc.dgetE od "price"
  let pa ← Doc.dgetE adapter "price"
  if po ≠ pa then pure true
  else do
    let ro ← Doc.dgetE od "releaseDate"
    let ra ← Doc.dgetE adapter "releaseDate"
    pure (ro ≠ ra)

/-- The notification decision of `process_item` (jump_cal.py lines
109-129): an *update* notification when the upsert modified the stored
document and price or releaseDate differ from the stored row; a *new*
notification when no document existed (`elif not old_data`, which is also
taken for a falsy empty stored dict); otherwise nothing.  When
`old_data` is `None` the first condition short-circuits on
`modified_count > 0`, which is 0 for an upsert that inserted. -/
def notify_decision (old_data : Option Doc) (modified_count : Nat) (adapter : Doc) :
    Except String NotifyKind :=
  if modified_count > 0 then
    match old_data with
    | none => .error "TypeError: 'NoneType' object is not subscriptable"
    | some od => do
      let chg ← priceOrDateChanged od adapter
      if chg then pure .update
      else if od.isEmpty then pure .new else pure .nothing
  else
    match old_data with
    | none => pure .new
    | some od => if od.isEmpty then pure .new else pure .nothing

end JumpCalMongoPipeline

/-- **C8 counterexample**: for an existing item whose upsert reported a
non-empty `changedFields` containing `price`, the claim demands
`shouldNotify = true`, but toy_news's decision stores `enable = is_new =
false` in `notify_meta`, so `NotifyPipeline.process_item` sends nothing. -/
theorem C8_counterexample :
    claimShouldNotify false
      [("price", Value.vobj [("old", Value.vstr ""), ("new", Value.vstr "¥500")])] = true ∧
    NotifyPipeline.shouldNotify
      (some (DataNormalizationPipeline.notify_meta_entry false
        [("price", Value.vstr "¥500"),
         ("images", Value.vlist [Value.vstr "https://img/1"])])) = false := by
  decide

/-- **C8 (amended)**: in toy_news, the notification decision enables a
notification exactly when the item is new — a non-empty `changedFields`
never triggers one — and the channel hint is `image_text` exactly when
the normalized product has a truthy `images` field, else `text`; in
jump_cal, a notification fires for a new item, or as an update exactly
when the upsert modified the row and `price` or `releaseDate` changed
(text only, no channel hint). -/
theorem C8_notify_decision (is_new : Bool) (nd : Doc) (old adapter : Doc) (mc : Nat) :
    (NotifyPipeline.shouldNotify
       (some (DataNormalizationPipeline.notify_meta_entry is_new nd)) = is_new) ∧
    (NotifyPipeline.shouldNotify none = false) ∧
    ((DataNormalizationPipeline.notify_meta_entry is_new nd).type =
       if (Doc.dget nd "images").truthy then "image_text" else "text") ∧
    (JumpCalMongoPipeline.notify_decision none 0 adapter = .ok .new) ∧
    (∀ po pa ro ra, Doc.dget? old "price" = some po →
       Doc.dget? adapter "price" = some pa →
       Doc.dget? old "releaseDate" = some ro →
       Doc.dget? adapter "releaseDate" = some ra →
       old.isEmpty = false → 0 < mc →
       JumpCalMongoPipeline.notify_decision (some old) mc adapter =
         .ok (if po ≠ pa ∨ ro ≠ ra then .update else .nothing)) := by
  refine ⟨rfl, rfl, rfl, rfl, ?_⟩
  intro po pa ro ra hpo hpa hro hra hne hmc
  unfold JumpCalMongoPipeline.notify_decision JumpCalMongoPipeline.priceOrDateChanged
  rw [if_pos hmc]
  simp only [Doc.dgetE, hpo, hpa, hro, hra]
  by_cases hp : po = pa
  · by_cases hr : ro = ra
    · simp [bind, Except.bind, pure, Except.pure, hp, hr, hne]
    · simp [bind, Except.bind, pure, Except.pure, hp, hr, hne]
  · simp [bind, Except.bind, pure, Except.pure, hp, hne]

/-- Witness for C8 at concrete stored/new rows with a price change. -/
theorem C8_notify_decision_witness :
    (NotifyPipeline.shouldNotify
       (some (DataNormalizationPipeline.notify_meta_entry false
         [("images", Value.vlist [Value.vstr "https://img/1"])])) = false) ∧
    (NotifyPipeline.shouldNotify none = false) ∧
    ((DataNormalizationPipeline.notify_meta_entry false
       [("images", Value.vlist [Value.vstr "https://img/1"])]).type =
       if (Doc.dget [("images", Value.vlist [Value.vstr "https://img/1"])]
           "images").truthy then "image_text" else "text") ∧
    (JumpCalMongoPipeline.notify_decision none 0
       [("price", Value.vstr "¥500"), ("releaseDate", Value.vstr "2026年1月")] =
       .ok .new) ∧
    (JumpCalMongoPipeline.notify_decision
       (some [("price", Value.vstr ""), ("releaseDate", Value.vstr "2026年1月")]) 1
       [("price", Value.vstr "¥500"), ("releaseDate", Value.vstr "2026年1月")] =
       .ok (if (Value.vstr "" : Value) ≠ Value.vstr "¥500" ∨
              (Value.vstr "2026年1月" : Value) ≠ Value.vstr "2026年1月"
            then .update else .nothing)) := by
  have h := C8_notify_decision false
    [("images", Value.vlist [Value.vstr "https://img/1"])]
    [("price", Value.vstr ""), ("releaseDate", Value.vstr "2026年1月")]
    [("price", Value.vstr "¥500"), ("releaseDate", Value.vstr "2026年1月")] 1
  exact ⟨h.1, h.2.1, h.2.2.1, h.2.2.2.1,
    h.2.2.2.2 _ _ _ _ rfl rfl rfl rfl rfl (by decide)⟩
/-! ## The translation queue pipelines: `toy_news/toy_news/pipelines/translation.py`
and `jump_cal/jump_cal/pipelines/translation.py` -/

namespace TranslationPipeline

/-- toy_news translation.py line 23. -/
def fields_to_translate : List String := ["name", "description"]

/-- toy_news translation.py line 25. -/
def blognew_fields_to_translate : List String := ["title", "content", "summary"]

/-- One message `_add_to_translation_queue` pushes onto the Redis list
(translation.py lines 224-240). -/
structure QueueMessage where
  id : String
  type : String
  payload : Doc
  timestamp : String
  attempts : Nat
  max_retries : Nat
deriving Repr, DecidableEq

/-- `TranslationPipeline._add_to_translation_queue` (translation.py lines
195-249): build the message and `lpush` it onto the Redis queue.  `uuid`
and `tstr` stand for `uuid.uuid4()` and the formatted `datetime.now()`.
Note there is no keyed upsert here: every call pushes a fresh message. -/
def add_to_translation_queue (adapter : Doc) (fields : Option (List String))
    (uuid tstr : String) (queue : List QueueMessage) : List QueueMessage :=
  let fs := match fields with
    | some fs => fs
    | none =>
      if (Doc.dget adapter "product_hash").truthy then fields_to_translate
      else if (Doc.dget adapter "article_hash").truthy then blognew_fields_to_translate
      else fields_to_translate
  let metadata : Doc :=
    if (Doc.dget adapter "product_hash").truthy then
      [("product_hash", Doc.dget adapter "product_hash")]
    else if (Doc.dget adapter "article_hash").truthy then
      [("article_hash", Doc.dget adapter "article_hash")]
    else []
  let translation_fields : Doc :=
    (fs.filter (fun f => Doc.dhas adapter f && (Doc.dget adapter f).truthy)).map
      (fun f => (f, Doc.dget adapter f))
  if translation_fields.isEmpty then queue
  else
    { id := uuid, type := "translation",
      payload := Doc.dsetMany (Doc.dsetMany
        [("_id", Doc.dget adapter "_id"), ("created_at", .vstr tstr)] metadata)
        translation_fields,
      timestamp := tstr, attempts := 0, max_retries := 5 } :: queue

/-- `TranslationPipeline._process_product_translation` (translation.py
lines 113-152).  In the branch where every translatable field of the
stored normalized document is already translated, line 140 executes
`return item`, but `item` is not a name bound in this method (its
parameters are `self, adapter, spider, product_hash`), so Python raises
`NameError` there. -/
def process_product_translation (normalized : List Doc) (adapter : Doc)
    (product_hash : Value) (uuid tstr : String) (queue : List QueueMessage) :
    Except String (Doc × List QueueMessage) :=
  match normalized.find? (fun d => decide (Doc.dget? d "product_hash" = some product_hash)) with
  | some normalized_doc =>
    let untranslated_fields := fields_to_translate.filter (fun field =>
      !(Doc.dhas normalized_doc (field ++ "CN") &&
          (Doc.dget normalized_doc (field ++ "CN")).truthy) &&
      (Doc.dhas adapter field && (Doc.dget adapter field).truthy))
    if untranslated_fields.isEmpty then
      .error "NameError: name 'item' is not defined"
    else
      .ok (adapter, add_to_translation_queue adapter (some untranslated_fields) uuid tstr queue)
  | none =>
    let untranslated_fields := fields_to_translate.filter (fun field =>
      Doc.dhas adapter field && (Doc.dget adapter field).truthy)
    .ok (adapter,
      if untranslated_fields.isEmpty then queue
      else add_to_translation_queue adapter (some untranslated_fields) uuid tstr queue)

/-- `TranslationPipeline._process_blognew_translation` (translation.py
lines 154-193).  Only the all-fields-translated branch returns normally
(line 181 `return adapter`); every other path falls through to line 193
`return item`, where `item` is again unbound, raising `NameError` — after
the Redis push of line 185/190 has already happened. -/
def process_blognew_translation (blognew_normalized : List Doc) (adapter : Doc)
    (article_hash : Value) (uuid tstr : String) (queue : List QueueMessage) :
    Except String (Doc × List QueueMessage) :=
  match blognew_normalized.find?
      (fun d => decide (Doc.dget? d "article_hash" = some article_hash)) with
  | some normalized_doc =>
    let untranslated_fields := blognew_fields_to_translate.filter (fun field =>
      !(Doc.dhas normalized_doc (field ++ "CN") &&
          (Doc.dget normalized_doc (field ++ "CN")).truthy) &&
      (Doc.dhas adapter field && (Doc.dget adapter field).truthy))
    if untranslated_fields.isEmpty then
      .ok (adapter, queue)
    else
      .error "NameError: name 'item' is not defined"
  | none =>
    .error "NameError: name 'item' is not defined"

end TranslationPipeline

namespace JumpCalTranslationPipeline

/-- The two Mongo collections `jump_cal`'s TranslationPipeline uses: the
`*_translated` results and the `*_translation_pending` queue (unique
index on `item_id`). -/
structure TState where
  translated : List Doc
  pending : List Doc
deriving Repr, DecidableEq

/-- `update_one` on the pending collection keyed by `item_id`. -/
def updateFirstById (docs : List Doc) (idv : Value) (f : Doc → Doc) : List Doc :=
  match docs with
  | [] => []
  | d :: rest =>
    if Doc.dget? d "item_id" = some idv then f d :: rest
    else d :: updateFirstById rest idv f

/-- The `$set` document of the pending upsert (jump_cal translation.py
lines 84-89). -/
def pendingSet (fields : List String) (item : Doc) (idv : Value) (now : Nat) : Doc :=
  [("updatedAt", Value.vdate now)] ++
    fields.map (fun f => (f, Doc.dget item f)) ++ [("item_id", idv)]

/-- `TranslationPipeline.process_item` (jump_cal translation.py lines
62-95): skip items without a truthy `_id`; copy back translations when a
translated row exists; otherwise upsert one pending row keyed by
`item_id` (`$setOnInsert createdAt`, `$set` fields + `updatedAt` +
`item_id`). -/
def process_item (fields : List String) (st : TState) (item : Doc) (now : Nat) :
    TState × Doc :=
  let item_id := Doc.dget item "_id"
  if item_id.truthy = false then (st, item)
  else
    match st.translated.find? (fun d => decide (Doc.dget? d "item_id" = some item_id)) with
    | some translated_doc =>
      (st, fields.foldl (fun it field =>
        if Doc.dhas translated_doc (field ++ "CN") then
          Doc.dset it (field ++ "CN") (Doc.dget translated_doc (field ++ "CN"))
        else it) item)
    | none =>
      match st.pending.find? (fun d => decide (Doc.dget? d "item_id" = some item_id)) with
      | some _ =>
        ({ st with pending := (updateFirstById st.pending item_id
            (fun d => Doc.dsetMany d (pendingSet fields item item_id now))) }, item)
      | none =>
        ({ st with pending := (st.pending ++
            [Doc.dsetMany [("createdAt", Value.vdate now)]
              (pendingSet fields item item_id now)]) }, item)

/-- The pending rows stored for one identity. -/
def pendingFor (st : TState) (idv : Value) : List Doc :=
  st.pending.filter (fun d => decide (Doc.dget? d "item_id" = some idv))

end JumpCalTranslationPipeline
namespace TranslationPipeline

/-- **C10**: when the stored normalized document already has non-empty
translations for every translatable field, the all-translated branch of
`_process_product_translation` executes `return item` with `item` unbound
in that method's scope, so the call raises `NameError`; the final
`return item` of `_process_blognew_translation` has the same out-of-scope
reference, so every path of that method other than its all-translated
branch raises `NameError` too. -/
theorem C10_return_item_name_error (normalized blognew : List Doc) (adapter : Doc)
    (ph ah : Value) (uuid tstr : String) (q : List QueueMessage) (nd : Doc)
    (h1 : normalized.find?
      (fun d => decide (Doc.dget? d "product_hash" = some ph)) = some nd)
    (h2 : (fields_to_translate.filter (fun field =>
        !(Doc.dhas nd (field ++ "CN") && (Doc.dget nd (field ++ "CN")).truthy) &&
        (Doc.dhas adapter field && (Doc.dget adapter field).truthy))).isEmpty = true)
    (h3 : blognew.find?
      (fun d => decide (Doc.dget? d "article_hash" = some ah)) = none) :
    process_product_translation normalized adapter ph uuid tstr q =
      .error "NameError: name 'item' is not defined" ∧
    process_blognew_translation blognew adapter ah uuid tstr q =
      .error "NameError: name 'item' is not defined" := by
  constructor
  · unfold process_product_translation
    simp only [h1]
    rw [if_pos h2]
  · unfold process_blognew_translation
    simp only [h3]

/-- Witness for C10: a fully translated product row, and an article with
no stored normalized row. -/
theorem C10_return_item_name_error_witness :
    process_product_translation
      [[("product_hash", Value.vstr "h1"), ("nameCN", Value.vstr "翻译"),
        ("descriptionCN", Value.vstr "说明")]]
      [("product_hash", Value.vstr "h1"), ("name", Value.vstr "N"),
       ("description", Value.vstr "D")]
      (Value.vstr "h1") "uuid1" "t1" [] =
      .error "NameError: name 'item' is not defined" ∧
    process_blognew_translation []
      [("product_hash", Value.vstr "h1"), ("name", Value.vstr "N"),
       ("description", Value.vstr "D")]
      (Value.vstr "a1") "uuid1" "t1" [] =
      .error "NameError: name 'item' is not defined" :=
  C10_return_item_name_error
    [[("product_hash", Value.vstr "h1"), ("nameCN", Value.vstr "翻译"),
      ("descriptionCN", Value.vstr "说明")]]
    []
    [("product_hash", Value.vstr "h1"), ("name", Value.vstr "N"),
     ("description", Value.vstr "D")]
    (Value.vstr "h1") (Value.vstr "a1") "uuid1" "t1" []
    [("product_hash", Value.vstr "h1"), ("nameCN", Value.vstr "翻译"),
     ("descriptionCN", Value.vstr "说明")]
    (by decide) (by decide) rfl

/-- **C4 counterexample**: toy_news's enqueue (the Redis `lpush` of
`_add_to_translation_queue`) is not keyed: calling it twice for the same
product identity before the worker runs leaves two queue messages for
that identity, not one merged pending record. -/
theorem C4_counterexample :
    ((add_to_translation_queue
        [("product_hash", Value.vstr "h1"), ("name", Value.vstr "フィギュアA")]
        none "uuid2" "t2"
        (add_to_translation_queue
          [("product_hash", Value.vstr "h1"), ("name", Value.vstr "フィギュアA")]
          none "uuid1" "t1" [])).filter
      (fun m => decide (Doc.dget? m.payload "product_hash" =
        some (Value.vstr "h1")))).length = 2 ∧
    ((add_to_translation_queue
        [("product_hash", Value.vstr "h1"), ("name", Value.vstr "フィギュアA")]
        none "uuid2" "t2"
        (add_to_translation_queue
          [("product_hash", Value.vstr "h1"), ("name", Value.vstr "フィギュアA")]
          none "uuid1" "t1" [])).filter
      (fun m => decide (Doc.dget? m.payload "product_hash" =
        some (Value.vstr "h1")))).length ≠ 1 := by
  decide

end TranslationPipeline

namespace JumpCalTranslationPipeline

/-- **C4 (amended)**: jump_cal's pipeline enqueue is idempotent — two
`process_item` calls for the same item before the translation worker runs
leave exactly one pending row for its `item_id`, the translate fields
being overwritten by `$set` rather than duplicated — whereas toy_news's
`_add_to_translation_queue` pushes a fresh Redis message on every call,
so two calls leave two queue entries for the same identity (see the
counterexample). -/
theorem C4_enqueue_idempotent (fields : List String) (item : Doc) (idv : Value)
    (t1 t2 : Nat)
    (hid : Doc.dget item "_id" = idv) (htruthy : idv.truthy = true) :
    ∃ st1 it1 st2 it2,
      process_item fields ⟨[], []⟩ item t1 = (st1, it1) ∧
      process_item fields st1 item t2 = (st2, it2) ∧
      (pendingFor st2 idv).length = 1 ∧
      st2.pending.length = 1 := by
  have hps : ∀ t : Nat, pendingSet fields item idv t =
      ([("updatedAt", Value.vdate t)] ++ fields.map (fun f => (f, Doc.dget item f)))
        ++ [("item_id", idv)] := by
    intro t
    unfold pendingSet
    rw [List.append_assoc]
  have hlast : ∀ t : Nat, Doc.dlast (pendingSet fields item idv t) "item_id" =
      some idv := by
    intro t
    rw [hps t, Doc.dlast_append_last]
  have hP1id : Doc.dget? (Doc.dsetMany [("createdAt", Value.vdate t1)]
      (pendingSet fields item idv t1)) "item_id" = some idv := by
    rw [Doc.dget?_dsetMany, hlast t1]
  have hfP1id : Doc.dget? (Doc.dsetMany
      (Doc.dsetMany [("createdAt", Value.vdate t1)] (pendingSet fields item idv t1))
      (pendingSet fields item idv t2)) "item_id" = some idv := by
    rw [Doc.dget?_dsetMany, hlast t2]
  have hstep1 : process_item fields ⟨[], []⟩ item t1 =
      (⟨[], [Doc.dsetMany [("createdAt", Value.vdate t1)]
        (pendingSet fields item idv t1)]⟩, item) := by
    unfold process_item
    simp [hid, htruthy, List.find?]
  have hstep2 : process_item fields
      (⟨[], [Doc.dsetMany [("createdAt", Value.vdate t1)]
        (pendingSet fields item idv t1)]⟩ : TState) item t2 =
      (⟨[], [Doc.dsetMany
        (Doc.dsetMany [("createdAt", Value.vdate t1)] (pendingSet fields item idv t1))
        (pendingSet fields item idv t2)]⟩, item) := by
    unfold process_item
    simp only [hid, htruthy, List.find?, hP1id, decide_eq_true_eq]
    simp [updateFirstById, hP1id]
  refine ⟨_, _, _, _, hstep1, hstep2, ?_, rfl⟩
  unfold pendingFor
  simp [List.filter, hfP1id]

/-- Witness for C4's amended statement on a concrete jump_cal item. -/
theorem C4_enqueue_idempotent_witness :
    ∃ st1 it1 st2 it2,
      process_item ["goodsName", "description"] ⟨[], []⟩
        [("_id", Value.vid 7), ("goodsName", Value.vstr "ゴムゴムの実")] 0 = (st1, it1) ∧
      process_item ["goodsName", "description"] st1
        [("_id", Value.vid 7), ("goodsName", Value.vstr "ゴムゴムの実")] 1 = (st2, it2) ∧
      (pendingFor st2 (Value.vid 7)).length = 1 ∧
      st2.pending.length = 1 :=
  C4_enqueue_idempotent ["goodsName", "description"]
    [("_id", Value.vid 7), ("goodsName", Value.vstr "ゴムゴムの実")]
    (Value.vid 7) 0 1 (by decide) (by decide)

end JumpCalTranslationPipeline
/-! ## The external translator: `jump_cal/jump_cal/translators/deepseek_translator.py`
(the copy imported by `toy_news/scripts/translation_service.py` is not in
the tree; claim C5 cites this file for `batch_translate_texts`).  The
chat-completions endpoint is the `api` parameter: it maps the user
message content to the response content, or `none` when the HTTP call
raises (the `except` path). -/

namespace DeepSeekTranslator

/-- `str.strip` / `str.split` on explicit character lists (structural
recursion, so concrete runs reduce). -/
def isSpace (c : Char) : Bool := c = ' ' || c = '\t' || c = '\n' || c = '\r'

def dropLeading : List Char → List Char
  | [] => []
  | c :: rest => if isSpace c then dropLeading rest else c :: rest

def trimStr (s : String) : String :=
  String.mk ((dropLeading ((dropLeading s.toList).reverse)).reverse)

def splitLinesAux : List Char → List Char → List String
  | [], acc => [String.mk acc.reverse]
  | c :: rest, acc =>
    if c = '\n' then String.mk acc.reverse :: splitLinesAux rest []
    else splitLinesAux rest (c :: acc)

def splitLines (s : String) : List String := splitLinesAux s.toList []

/-- Index of the first occurrence of `sub` in `s` (Python `str.find`),
`none` standing for Python's `-1`. -/
def leadsWith : List Char → List Char → Bool
  | [], _ => true
  | _ :: _, [] => false
  | a :: as, b :: bs => a = b && leadsWith as bs

def findSub : List Char → List Char → Nat → Option Nat
  | [], sub, i => if sub.isEmpty then some i else none
  | c :: rest, sub, i =>
    if leadsWith sub (c :: rest) then some i
    else findSub rest sub (i + 1)

/-- The per-line parse of `batch_translate_texts` (lines 85-111): skip
blank and `---` lines, accept `"<digits>. <non-empty translation>"`. -/
def parseLine (line : String) : Option String :=
  let l := trimStr line
  if l = "" ∨ l = "---" then none
  else
    match l.toList with
    | [] => none
    | c :: _ =>
      if c.isDigit then
        match findSub l.toList ['.', ' '] 0 with
        | some dot_index =>
          if dot_index > 0 then
            let number_part := l.toList.take dot_index
            if number_part.all Char.isDigit then
              let translation := trimStr (String.mk (l.toList.drop (dot_index + 2)))
              if translation ≠ "" then some translation else none
            else none
          else none
        | none => none
      else none

/-- The numbered prompt body (line 62). -/
def combined_text (texts : List String) : String :=
  String.intercalate "\n---\n"
    (texts.enum.map (fun p => toString (p.1 + 1) ++ ". " ++ p.2))

/-- `DeepSeekTranslator.batch_translate_texts` (lines 50-135): one API
call for the whole list; parse the numbered response; on a count
mismatch, truncate excess or pad the missing tail with the original
source texts (lines 113-128); on an API exception return the inputs
unchanged (line 133-135). -/
def batch_translate_texts (api : String → Option String) (texts : List String) :
    List String :=
  match api ("Translate the following texts from Japanese to Chinese, keeping the same numbering format:\n"
      ++ combined_text texts) with
  | none => texts
  | some response_text =>
    let translations := (splitLines (trimStr response_text)).filterMap parseLine
    if translations.length > texts.length then translations.take texts.length
    else if translations.length < texts.length then
      translations ++ texts.drop translations.length
    else translations

/-- The `(doc_indices, texts_to_translate)` collection of
`batch_translate_documents` (lines 170-178); field values are rendered
with `str` as the prompt's f-string does. -/
def collectField (docs : List Doc) (field : String) : List (Nat × String) :=
  docs.enum.filterMap (fun p =>
    if Doc.dhas p.2 field && (Doc.dget p.2 field).truthy then
      some (p.1, Value.pyStr (Doc.dget p.2 field))
    else none)

/-- The write-back loop of `batch_translate_documents` (lines 184-188):
`translated_docs.append(docs[idx].copy())` when `idx` is past the end,
then `translated_docs[idx][f'{field}CN'] = translation`; an index that is
still out of range raises `IndexError`. -/
def applyTranslations (docs : List Doc) (field : String) :
    List (Nat × String) → List Doc → Except String (List Doc)
  | [], tds => .ok tds
  | (idx, tr) :: rest, tds =>
    let tds1 := if tds.length ≤ idx then tds ++ [docs.getD idx []] else tds
    match tds1.get? idx with
    | none => .error "IndexError: list assignment index out of range"
    | some d =>
      applyTranslations docs field rest (tds1.set idx (Doc.dset d (field ++ "CN") (.vstr tr)))

/-- One document's check in the verify loop (lines 191-196):
`f'{field}CN' in doc and doc[f'{field}CN'] != doc[field]`, with Python's
KeyError on a missing base field. -/
def translation_performed : List String → Doc → Except String Bool
  | [], _ => .ok false
  | f :: rest, doc =>
    if Doc.dhas doc (f ++ "CN") then
      match Doc.dgetE doc f with
      | .error e => .error e
      | .ok v =>
        if Doc.dget doc (f ++ "CN") ≠ v then .ok true
        else translation_performed rest doc
    else translation_performed rest doc

/-- The verify loop (lines 190-199): raise for any document without a
changed translation; the `ValueError` message interpolates `doc['_id']`,
which itself raises `KeyError` first when the document has no `_id`. -/
def verify_translations (fields : List String) : List Doc → Except String Unit
  | [] => .ok ()
  | doc :: rest =>
    match translation_performed fields doc with
    | .error e => .error e
    | .ok true => verify_translations fields rest
    | .ok false =>
      match Doc.dget? doc "_id" with
      | none => .error "KeyError: _id"
      | some _ => .error "ValueError: No translation was performed"

/-- The per-field loop of `batch_translate_documents` (lines 167-188),
also recording each `batch_translate_texts` invocation as
`(field, texts_sent)`. -/
def btdLoop (api : String → Option String) (docs : List Doc) :
    List String → List Doc → List (String × List String) →
    List (String × List String) × Except String (List Doc)
  | [], tds, log => (log, .ok tds)
  | field :: rest, tds, log =>
    let pairs := collectField docs field
    if pairs.isEmpty then btdLoop api docs rest tds log
    else
      let texts := pairs.map (·.2)
      let translations := batch_translate_texts api texts
      match applyTranslations docs field ((pairs.map (·.1)).zip translations) tds with
      | .error e => (log ++ [(field, texts)], .error e)
      | .ok tds' => btdLoop api docs rest tds' (log ++ [(field, texts)])

/-- `DeepSeekTranslator.batch_translate_documents` (lines 156-201).  The
first component is the log of external-translator invocations; the
second is the translated documents, or the exception the verify loop
raised. -/
def batch_translate_documents (api : String → Option String) (docs : List Doc)
    (fields_to_translate : List String) :
    List (String × List String) × Except String (List Doc) :=
  match btdLoop api docs fields_to_translate [] [] with
  | (log, .error e) => (log, .error e)
  | (log, .ok tds) =>
    match verify_translations fields_to_translate tds with
    | .error e => (log, .error e)
    | .ok () => (log, .ok tds)

end DeepSeekTranslator
/-! ## The translation worker: `toy_news/scripts/translation_service.py` -/

namespace TranslationService

/-- lines 35-36. -/
def fields_to_translate : List String := ["name", "description"]

/-- `batch_size` (line 32). -/
def batch_size : Nat := 10

/-- One row of the `toys_translation_cache` collection (unique index on
`text_hash`). -/
structure CacheEntry where
  text_hash : String
  original_text : String
  translated_text : String
  usage_count : Nat
  created_at : Nat
  updated_at : Nat
deriving Repr, DecidableEq

/-- `get_text_hash` (lines 59-61): the md5 hexdigest, kept abstract as
the `md5Hex` parameter. -/
def get_text_hash (md5Hex : String → String) (text : String) : String := md5Hex text

/-- `get_cached_translation` (lines 63-67). -/
def get_cached_translation (md5Hex : String → String) (cache : List CacheEntry)
    (text : String) : Option String :=
  (cache.find? (fun e => e.text_hash == get_text_hash md5Hex text)).map
    (·.translated_text)

def updateCacheFirst (cache : List CacheEntry) (h : String)
    (f : CacheEntry → CacheEntry) : List CacheEntry :=
  match cache with
  | [] => []
  | e :: rest => if e.text_hash = h then f e :: rest else e :: updateCacheFirst rest h f

/-- `cache_translation` (lines 69-95): `update_one` keyed by `text_hash`
with `upsert=True`; `$setOnInsert` stamps `created_at`, and the `$set`
unconditionally writes `usage_count: 1` — also on an existing row.  The
`except DuplicateKeyError` branch with `$inc usage_count` can only fire
on a concurrent-writer race, which this sequential model never reaches. -/
def cache_translation (md5Hex : String → String) (cache : List CacheEntry)
    (original_text translated_text : String) (now : Nat) : List CacheEntry :=
  let h := get_text_hash md5Hex original_text
  match cache.find? (fun e => e.text_hash == h) with
  | some _ =>
    updateCacheFirst cache h (fun e =>
      { e with text_hash := h, original_text := original_text,
               translated_text := translated_text, updated_at := now,
               usage_count := 1 })
  | none =>
    cache ++ [{ text_hash := h, original_text := original_text,
                translated_text := translated_text, usage_count := 1,
                created_at := now, updated_at := now }]

/-- The `translation_map` of `translate_with_cache`: an insertion-ordered
dict of field → (insertion-ordered dict of original text → product-hash
list). -/
abbrev TransMap := List (String × List (String × List Value))

def alGet? {α : Type} (m : List (String × α)) (k : String) : Option α :=
  (m.find? (fun p => p.1 == k)).map (·.2)

def alSet {α : Type} : List (String × α) → String → α → List (String × α)
  | [], k, v => [(k, v)]
  | p :: rest, k, v => if p.1 = k then (k, v) :: rest else p :: alSet rest k v

/-- translate_with_cache lines 117-124: record a cache miss. -/
def tmAdd (tm : TransMap) (field text : String) (ph : Value) : TransMap :=
  let tm1 := if (alGet? tm field).isSome then tm else tm ++ [(field, [])]
  let inner := (alGet? tm1 field).getD []
  let inner1 := if (alGet? inner text).isSome then inner else inner ++ [(text, [])]
  let lst := (alGet? inner1 text).getD []
  alSet tm1 field (alSet inner1 text (lst ++ [ph]))

/-- The inner field loop of the cache-check pass (lines 108-124): cache
hits set `doc[f'{field}CN']` immediately, misses are recorded in the map.
Hashing a non-string raises (`text.encode`), but pending texts are
strings. -/
def checkCacheFields (md5Hex : String → String) (cache : List CacheEntry) :
    List String → Doc → TransMap → Value → Except String (Doc × TransMap)
  | [], doc, tm, _ => .ok (doc, tm)
  | field :: fs, doc, tm, ph =>
    if Doc.dhas doc field && (Doc.dget doc field).truthy then
      match Doc.dget doc field with
      | .vstr original_text =>
        match get_cached_translation md5Hex cache original_text with
        | some cached =>
          checkCacheFields md5Hex cache fs
            (Doc.dset doc (field ++ "CN") (.vstr cached)) tm ph
        | none =>
          checkCacheFields md5Hex cache fs doc (tmAdd tm field original_text ph) ph
      | _ => .error "TypeError: can only hash strings"
    else checkCacheFields md5Hex cache fs doc tm ph

/-- The cache-check pass of `translate_with_cache` (lines 104-124):
`doc['product_hash']` raises `KeyError` on malformed pending rows. -/
def checkCache (md5Hex : String → String) (cache : List CacheEntry) :
    List Doc → TransMap → Except String (List Doc × TransMap)
  | [], tm => .ok ([], tm)
  | doc :: rest, tm =>
    match Doc.dgetE doc "product_hash" with
    | .error e => .error e
    | .ok ph =>
      match checkCacheFields md5Hex cache fields_to_translate doc tm ph with
      | .error e => .error e
      | .ok (doc', tm') =>
        match checkCache md5Hex cache rest tm' with
        | .error e => .error e
        | .ok (docs', tm'') => .ok (doc' :: docs', tm'')

/-- lines 152-158: write one translation back onto the first document in
the batch with the given `product_hash` (the `break` after the match).
Rows without a `product_hash` were already rejected by the cache-check
pass. -/
def setFirstByHash : List Doc → Value → String → Value → List Doc
  | [], _, _, _ => []
  | d :: rest, ph, k, v =>
    if Doc.dget? d "product_hash" = some ph then Doc.dset d k v :: rest
    else d :: setFirstByHash rest ph k v

/-- lines 151-158: propagate one translated text to every document whose
hash was recorded for it. -/
def propagate (docs : List Doc) (field : String) (phs : List Value) (tr : String) :
    List Doc :=
  phs.foldl (fun ds ph => setFirstByHash ds ph (field ++ "CN") (.vstr tr)) docs

/-- The result-processing loop (lines 141-158): for the `j`-th translated
temp document take `texts_to_translate[j]`, cache the translation, and
propagate it.  Returns the cache state reached even when an exception
aborts the loop, since cache writes are persistent. -/
def applyResults (md5Hex : String → String) (field : String)
    (text_map : List (String × List Value)) (texts : List String) (now : Nat) :
    List Doc → Nat → List Doc → List CacheEntry →
    List CacheEntry × Except String (List Doc)
  | [], _, docs, cache => (cache, .ok docs)
  | tdoc :: rest, j, docs, cache =>
    match texts.get? j with
    | none => (cache, .error "IndexError: list index out of range")
    | some original_text =>
      if Doc.dhas tdoc (field ++ "CN") then
        match Doc.dget tdoc (field ++ "CN") with
        | .vstr translated_text =>
          applyResults md5Hex field text_map texts now rest (j + 1)
            (propagate docs field ((alGet? text_map original_text).getD [])
              translated_text)
            (cache_translation md5Hex cache original_text translated_text now)
        | _ => (cache, .error "unreachable: translations are strings")
      else applyResults md5Hex field text_map texts now rest (j + 1) docs cache

/-- The per-field translation loop of `translate_with_cache` (lines
129-158), threading the durable cache state and the invocation log
through exceptions. -/
def twcLoop (md5Hex : String → String) (api : String → Option String) :
    TransMap → List Doc → List CacheEntry → Nat → List (String × List String) →
    (List CacheEntry × List (String × List String)) × Except String (List Doc)
  | [], docs, cache, _, log => ((cache, log), .ok docs)
  | (field, text_map) :: restTm, docs, cache, now, log =>
    if text_map.isEmpty then twcLoop md5Hex api restTm docs cache now log
    else
      let texts := text_map.map (·.1)
      let temp_docs := texts.map (fun t => ([(field, Value.vstr t)] : Doc))
      match DeepSeekTranslator.batch_translate_documents api temp_docs [field] with
      | (blog, .error e) => ((cache, log ++ blog), .error e)
      | (blog, .ok translated_docs) =>
        match applyResults md5Hex field text_map texts now translated_docs 0 docs cache with
        | (cache', .error e) => ((cache', log ++ blog), .error e)
        | (cache', .ok docs') => twcLoop md5Hex api restTm docs' cache' now (log ++ blog)

/-- `TranslationService.translate_with_cache` (lines 97-160).  The first
component is the durable state the run leaves behind (cache rows written,
plus the log of external translator invocations); the second is the
translated批 batch, or the exception that aborted it (in which case the
in-memory doc mutations are discarded, as in Python). -/
def translate_with_cache (md5Hex : String → String) (api : String → Option String)
    (cache : List CacheEntry) (now : Nat) (items_to_translate : List Doc) :
    (List CacheEntry × List (String × List String)) × Except String (List Doc) :=
  match checkCache md5Hex cache items_to_translate [] with
  | .error e => ((cache, []), .error e)
  | .ok (docs1, tm) => twcLoop md5Hex api tm docs1 cache now []

/-- The three collections `process_pending_translations` touches. -/
structure SState where
  normalized : List Doc
  pending : List Doc
  cache : List CacheEntry
deriving Repr, DecidableEq

/-- One `UpdateOne({'product_hash': ph}, {'$set': tr, '$currentDate':
updatedAt})` of the bulk write (lines 201-209). -/
def bulkUpdateByHash (ns : List Doc) (ph : Value) (tr : Doc) (now : Nat) : List Doc :=
  match ns with
  | [] => []
  | d :: rest =>
    if Doc.dget? d "product_hash" = some ph then
      Doc.dset (Doc.dsetMany d tr) "updatedAt" (.vdate now) :: rest
    else d :: bulkUpdateByHash rest ph tr now

/-- `TranslationService.process_pending_translations` (lines 162-228):
take the oldest `batch_size` pending rows, translate with the cache, bulk
write the translated fields onto `toys_normalized`, delete the processed
pending rows, and return their count.  Any exception is caught at line
226 and the call returns 0 — with the cache writes that already happened
kept, and the pending rows left in place for the next cycle. -/
def process_pending_translations (md5Hex : String → String)
    (api : String → Option String) (now : Nat) (st : SState) : SState × Nat :=
  if st.pending.length = 0 then (st, 0)
  else
    let pending_items := st.pending.take batch_size
    match translate_with_cache md5Hex api st.cache now pending_items with
    | ((cache', _), .error _) => ({ st with cache := cache' }, 0)
    | ((cache', _), .ok translated_docs) =>
      let updates := translated_docs.filterMap (fun doc =>
        let tr : Doc := fields_to_translate.filterMap (fun f =>
          if Doc.dhas doc (f ++ "CN") then
            some (f ++ "CN", Doc.dget doc (f ++ "CN"))
          else none)
        if tr.isEmpty then none else some (Doc.dget doc "product_hash", tr))
      let normalized' := updates.foldl
        (fun ns p => bulkUpdateByHash ns p.1 p.2 now) st.normalized
      let deletions := updates.map (·.1)
      let pending' := st.pending.filter (fun d =>
        !(deletions.any (fun v => decide (Doc.dget? d "product_hash" = some v))))
      (⟨normalized', pending', cache'⟩, deletions.length)

end TranslationService

/-! ## Cache correctness, mismatch repair and deduplication (C3, C5, C6)

A minimal concrete family of pending rows exercising the worker: each
row carries a `product_hash` and the single translatable source string
`"hello"` in its `name` field.  The stub translator answers any prompt
with the numbered line `"1. X"`, and `md5Hex` is instantiated with the
identity (the hash function is abstract throughout the model). -/

namespace TranslationService

def sampleDoc (p : Value) : Doc := [("product_hash", p), ("name", .vstr "hello")]

def sampleTranslated (p : Value) : Doc :=
  [("product_hash", p), ("name", .vstr "hello"), ("nameCN", .vstr "X")]

/-- The one cache row such a run writes (with `md5Hex := id`, `now := 5`). -/
def helloEntry : CacheEntry :=
  { text_hash := "hello", original_text := "hello", translated_text := "X",
    usage_count := 1, created_at := 5, updated_at := 5 }

/-- The cache-check pass over sample rows accumulates every
`product_hash` under the single source text `"hello"`, leaving the
documents untouched (empty cache, so every lookup misses). -/
theorem checkCache_sample (phs : List Value) : ∀ acc,
    checkCache (fun s => s) [] (phs.map sampleDoc) [("name", [("hello", acc)])] =
      .ok (phs.map sampleDoc, [("name", [("hello", acc ++ phs)])]) := by
  induction phs with
  | nil => intro acc; simp [checkCache]
  | cons p rest ih =>
    intro acc
    show (match checkCache (fun s => s) [] (rest.map sampleDoc)
        [("name", [("hello", acc ++ [p])])] with
      | Except.error e => Except.error e
      | Except.ok (docs', tm'') => Except.ok (sampleDoc p :: docs', tm'')) = _
    rw [ih (acc ++ [p])]
    simp

/-- A document whose `product_hash` matches none of the listed hashes is
passed over by the write-back loop. -/
theorem propagate_cons_skip (d : Doc) (field tr : String) (phs : List Value)
    (h : ∀ p ∈ phs, Doc.dget? d "product_hash" ≠ some p) :
    ∀ ds, propagate (d :: ds) field phs tr = d :: propagate ds field phs tr := by
  induction phs with
  | nil => intro ds; rfl
  | cons p ps ih =>
    intro ds
    have hd : ¬ (Doc.dget? d "product_hash" = some p) := h p (by simp)
    show propagate (setFirstByHash (d :: ds) p (field ++ "CN") (.vstr tr)) field ps tr = _
    rw [show setFirstByHash (d :: ds) p (field ++ "CN") (.vstr tr) =
        d :: setFirstByHash ds p (field ++ "CN") (.vstr tr) from by
      simp [setFirstByHash, hd]]
    exact ih (fun q hq => h q (by simp [hq])) (setFirstByHash ds p (field ++ "CN") (.vstr tr))

/-- The write-back loop replaces the first document whose
`product_hash` matches. -/
theorem setFirstByHash_hit (d : Doc) (ds : List Doc) (ph : Value) (k : String)
    (v : Value) (h : Doc.dget? d "product_hash" = some ph) :
    setFirstByHash (d :: ds) ph k v = Doc.dset d k v :: ds := by
  simp [setFirstByHash, h]

/-- With pairwise-distinct hashes, propagating the single translation
`"X"` over the sample batch stamps `nameCN` on every document. -/
theorem propagate_sample (phs : List Value) (hnd : phs.Nodup) :
    propagate (phs.map sampleDoc) "name" phs "X" = phs.map sampleTranslated := by
  induction phs with
  | nil => rfl
  | cons p rest ih =>
    obtain ⟨hp, hrest⟩ := List.nodup_cons.mp hnd
    show propagate (setFirstByHash (sampleDoc p :: rest.map sampleDoc) p
        ("name" ++ "CN") (.vstr "X")) "name" rest "X" = _
    rw [setFirstByHash_hit (sampleDoc p) (rest.map sampleDoc) p ("name" ++ "CN")
        (.vstr "X") rfl]
    rw [show Doc.dset (sampleDoc p) ("name" ++ "CN") (.vstr "X") =
          sampleTranslated p from rfl]
    rw [propagate_cons_skip (sampleTranslated p) "name" "X" rest
        (fun q hq hcontra => hp (by
          have : p = q := by simpa [sampleTranslated, Doc.dget?] using hcontra
          simpa [this] using hq))]
    rw [ih hrest]
    rfl

/-- Processing the translator's answer for the one deduplicated text:
one cache write, and the translation propagated to every listed hash. -/
theorem applyResults_sample (phs : List Value) (docs : List Doc) :
    applyResults (fun s => s) "name" [("hello", phs)] ["hello"] 5
      [[("name", Value.vstr "hello"), ("nameCN", Value.vstr "X")]] 0 docs [] =
      ([helloEntry], .ok (propagate docs "name" phs "X")) := rfl

/-- The per-field loop on the sample translation map: exactly one
translator invocation, on the deduplicated text list `["hello"]`. -/
theorem twcLoop_sample (phs : List Value) (hnd : phs.Nodup) :
    twcLoop (fun s => s) (fun _ => some "1. X") [("name", [("hello", phs)])]
      (phs.map sampleDoc) [] 5 [] =
      (([helloEntry], [("name", ["hello"])]), .ok (phs.map sampleTranslated)) := by
  have hbtd : DeepSeekTranslator.batch_translate_documents (fun _ => some "1. X")
      [[("name", Value.vstr "hello")]] ["name"] =
      ([("name", ["hello"])],
        .ok [[("name", Value.vstr "hello"), ("nameCN", Value.vstr "X")]]) := by
    rfl
  simp only [twcLoop, List.isEmpty_cons, Bool.false_eq_true, if_false, List.map_cons,
    List.map_nil, hbtd, applyResults_sample, propagate_sample phs hnd]
  simp [twcLoop]

/-- C6 — within one batch, each field's cache-miss texts are
deduplicated before the external translator is called: a batch of any
number of documents all carrying the same source string `"hello"`
triggers exactly one translator invocation (the log records the single
call on `["hello"]` for field `name`), and the single result `"X"` is
written back to every document of the batch. -/
theorem C6_dedup_single_call (phs : List Value) (hne : phs ≠ []) (hnd : phs.Nodup) :
    translate_with_cache (fun s => s) (fun _ => some "1. X") [] 5 (phs.map sampleDoc) =
      (([helloEntry], [("name", ["hello"])]), .ok (phs.map sampleTranslated)) := by
  obtain ⟨p, rest, rfl⟩ : ∃ p rest, phs = p :: rest := by
    cases phs with
    | nil => exact absurd rfl hne
    | cons a b => exact ⟨a, b, rfl⟩
  have hcc : checkCache (fun s => s) [] ((p :: rest).map sampleDoc) [] =
      .ok ((p :: rest).map sampleDoc, [("name", [("hello", p :: rest)])]) := by
    show (match checkCache (fun s => s) [] (rest.map sampleDoc)
        [("name", [("hello", [p])])] with
      | Except.error e => Except.error e
      | Except.ok (docs', tm'') => Except.ok (sampleDoc p :: docs', tm'')) = _
    rw [checkCache_sample rest [p]]
    simp
  unfold translate_with_cache
  simp only [hcc]
  exact twcLoop_sample (p :: rest) hnd

/-- Closed instance of `C6_dedup_single_call` at two distinct hashes. -/
theorem C6_dedup_single_call_witness :
    translate_with_cache (fun s => s) (fun _ => some "1. X") [] 5
      ([Value.vstr "p1", Value.vstr "p2"].map sampleDoc) =
      (([helloEntry], [("name", ["hello"])]),
        .ok ([Value.vstr "p1", Value.vstr "p2"].map sampleTranslated)) :=
  C6_dedup_single_call [Value.vstr "p1", Value.vstr "p2"] (by decide) (by decide)

/-- Two pending rows, distinct products, the same source text. -/
def c3state : SState :=
  { normalized := [sampleDoc (.vstr "p1"), sampleDoc (.vstr "p2")],
    pending := [sampleDoc (.vstr "p1"), sampleDoc (.vstr "p2")],
    cache := [] }

/-- C3 — counterexample to `usage_count == 2`: translating the same
source text for two different products in one cycle leaves the single
cache row with `usage_count` equal to 1, not 2.  `cache_translation`
writes `usage_count: 1` inside `$set` (not `$setOnInsert`), cache hits
never `$inc`, and the per-batch deduplication means the text is cached
once; the `$inc` in the `DuplicateKeyError` handler is reachable only
under a concurrent-writer race. -/
theorem C3_counterexample :
    (process_pending_translations (fun s => s) (fun _ => some "1. X") 5
        c3state).1.cache.map (fun e => e.usage_count) = [1] ∧
    ¬ (process_pending_translations (fun s => s) (fun _ => some "1. X") 5
        c3state).1.cache.map (fun e => e.usage_count) = [2] := by
  decide

/-- C3 (amended) — translating the same source text for two different
products leaves exactly one cache row keyed by the text's hash with
`usage_count` equal to 1, both products receive the same translated
`nameCN`, and both pending rows are consumed. -/
theorem C3_cache_single_entry :
    (process_pending_translations (fun s => s) (fun _ => some "1. X") 5
        c3state).1.cache = [helloEntry] ∧
    (process_pending_translations (fun s => s) (fun _ => some "1. X") 5
        c3state).1.normalized.map (fun d => Doc.dget? d "nameCN") =
      [some (.vstr "X"), some (.vstr "X")] ∧
    (process_pending_translations (fun s => s) (fun _ => some "1. X") 5
        c3state).2 = 2 ∧
    (process_pending_translations (fun s => s) (fun _ => some "1. X") 5
        c3state).1.pending = [] := by
  decide

/-- Three pending rows whose source texts `a`, `b`, `c` are pairwise
distinct, so the stub answer `"1. X"` covers only the first of three. -/
def c5doc (p t : String) : Doc := [("product_hash", .vstr p), ("name", .vstr t)]

def c5state : SState :=
  { normalized := [c5doc "q1" "a", c5doc "q2" "b", c5doc "q3" "c"],
    pending := [c5doc "q1" "a", c5doc "q2" "b", c5doc "q3" "c"],
    cache := [] }

/-- C5 — a translator stub returning 1 numbered result for 3 input
texts: `batch_translate_texts` repairs the count mismatch by padding the
two missing slots with the original source texts, and the worker cycle
completes without crashing (the downstream translated-result
verification raises, the worker's blanket handler catches it and
returns 0) with every pending row left in place — no row is deleted or
given a fabricated translation, so all three stay eligible for
retranslation on a later cycle. -/
theorem C5_mismatch_repair :
    DeepSeekTranslator.batch_translate_texts (fun _ => some "1. X")
      ["a", "b", "c"] = ["X", "b", "c"] ∧
    process_pending_translations (fun s => s) (fun _ => some "1. X") 5 c5state =
      (c5state, 0) := by
  decide

end TranslationService
